import Mathlib

/-!
Verification of a 2D discrete-event elastic-collision simulator
(`vec2.h`, `particle.h`, `event.h`, `simulator.h`, `simulator.cpp`).

The C++ code is shallowly embedded here: `double` arithmetic is modelled
by exact real arithmetic (`ℝ`), the `std::numeric_limits<double>::infinity()`
"no collision" sentinel by `Option ℝ` (`none` = infinite / no event),
`std::vector`/`std::stack` by `List` (head of the list = top of the stack),
and the event priority queue by the list of pushed events.  The
`EventEarlier` comparator of `event.h` (`lhs.t > rhs.t`) makes the
`std::priority_queue` a min-heap on scheduled time but fixes no order
among exactly-equal times, so a pop is modelled as a relation (`popRel`)
over the admissible minimal-time choices, and the driver loop as a
big-step relation (`LoopExec`) with one execution per admissible
resolution of ties.
-/

open scoped Classical

noncomputable section

/-- A 2D vector (`vec2.h`): two real coordinates with addition, subtraction,
scalar scaling, dot product and squared norm. -/
@[ext]
structure Vec2 where
  x : ℝ
  y : ℝ

namespace Vec2

/-- The `operator+` of `Vec2`. -/
def add (a b : Vec2) : Vec2 := ⟨a.x + b.x, a.y + b.y⟩

/-- The `operator-` of `Vec2`. -/
def sub (a b : Vec2) : Vec2 := ⟨a.x - b.x, a.y - b.y⟩

/-- The `operator*(double)` of `Vec2`. -/
def smul (a : Vec2) (s : ℝ) : Vec2 := ⟨a.x * s, a.y * s⟩

/-- The `Vec2::dot`. -/
def dot (a b : Vec2) : ℝ := a.x * b.x + a.y * b.y

/-- The `Vec2::norm2`. -/
def norm2 (a : Vec2) : ℝ := a.x * a.x + a.y * a.y

end Vec2

/-- Circular particle (`particle.h`): position, velocity, radius, mass and
the collision counter used for stale-event invalidation. -/
structure Particle where
  r : Vec2
  v : Vec2
  rad : ℝ
  m : ℝ
  coll_count : Int

/-- The default `Particle` constructor: `r=(0,0), v=(0,0), rad=0.5, m=1, coll_count=0`. -/
instance : Inhabited Particle := ⟨⟨⟨0, 0⟩, ⟨0, 0⟩, 0.5, 1.0, 0⟩⟩

/-- Elastic line-of-centers impulse applied to a particle pair: the body of
`Simulator::bounce_pp` acting on `A = P_[i]` and `B = P_[j]`, returning the
updated pair.  Degenerate coincident centers (`dist2 <= 0`) are a no-op skip
that increments no counter. -/
def bounce_pp_pair (A B : Particle) : Particle × Particle :=
  let dr := B.r.sub A.r
  let dv := B.v.sub A.v
  let dist2 := dr.norm2
  if dist2 ≤ 0 then (A, B)
  else
    let rel := dv.dot dr / dist2
    let mA := A.m
    let mB := B.m
    let Jn := dr.smul rel
    let impulse := Jn.smul (2.0 * mA * mB / (mA + mB))
    ({ A with v := A.v.add (impulse.smul (-1.0 / mA)),
              coll_count := A.coll_count + 1 },
     { B with v := B.v.add (impulse.smul (1.0 / mB)),
              coll_count := B.coll_count + 1 })

/-- Total kinetic energy `(1/2)·mA·|vA|² + (1/2)·mB·|vB|²` of a pair of
bodies (the conserved quantity named by spec sections 4.3 and 8). -/
def kineticEnergy (A B : Particle) : ℝ :=
  1 / 2 * A.m * A.v.norm2 + 1 / 2 * B.m * B.v.norm2

/-- Total momentum `mA·vA + mB·vB` of a pair of bodies (spec section 8). -/
def totalMomentum (A B : Particle) : Vec2 :=
  (A.v.smul A.m).add (B.v.smul B.m)

/-- C3: for every two bodies with positive masses and non-coincident centers,
the pair-bounce update conserves total momentum exactly over exact real
arithmetic: `mA·vA' + mB·vB' = mA·vA + mB·vB`. -/
theorem bounce_pp_conserves_momentum (A B : Particle)
    (hA : 0 < A.m) (hB : 0 < B.m)
    (hne : (B.r.sub A.r).norm2 ≠ 0) :
    totalMomentum (bounce_pp_pair A B).1 (bounce_pp_pair A B).2
      = totalMomentum A B := by
  have hnn : 0 ≤ (B.r.sub A.r).norm2 := by
    simp only [Vec2.norm2]
    exact add_nonneg (mul_self_nonneg _) (mul_self_nonneg _)
  have hd2 : ¬ (B.r.sub A.r).norm2 ≤ 0 := fun hle => hne (le_antisymm hle hnn)
  have hA' : A.m ≠ 0 := ne_of_gt hA
  have hB' : B.m ≠ 0 := ne_of_gt hB
  have hAB' : A.m + B.m ≠ 0 := ne_of_gt (add_pos hA hB)
  simp only [bounce_pp_pair]
  rw [if_neg hd2]
  simp only [totalMomentum, Vec2.add, Vec2.sub, Vec2.smul, Vec2.dot, Vec2.norm2]
  simp only [Vec2.sub, Vec2.norm2] at hne
  ext <;> field_simp <;> ring

/-- Witness for C3 at a concrete input: two unit-mass bodies with centers
`(0,0)` and `(1,0)`. -/
theorem bounce_pp_conserves_momentum_witness :
    (0 : ℝ) < (1 : ℝ) ∧
    totalMomentum
      (bounce_pp_pair ⟨⟨0, 0⟩, ⟨1, 0⟩, 1 / 2, 1, 0⟩ ⟨⟨1, 0⟩, ⟨0, 0⟩, 1 / 2, 1, 0⟩).1
      (bounce_pp_pair ⟨⟨0, 0⟩, ⟨1, 0⟩, 1 / 2, 1, 0⟩ ⟨⟨1, 0⟩, ⟨0, 0⟩, 1 / 2, 1, 0⟩).2
      = totalMomentum ⟨⟨0, 0⟩, ⟨1, 0⟩, 1 / 2, 1, 0⟩ ⟨⟨1, 0⟩, ⟨0, 0⟩, 1 / 2, 1, 0⟩ :=
  ⟨by norm_num,
   bounce_pp_conserves_momentum _ _ (by norm_num) (by norm_num)
     (by simp only [Vec2.sub, Vec2.norm2]; norm_num)⟩

/-- C1: the pair-bounce update does NOT conserve kinetic energy.  At the
concrete head-on input `A = ((0,0),(1,0),rad 1/2,mass 1)`,
`B = ((1,0),(0,0),rad 1/2,mass 1)` (positive masses, non-coincident centers)
the code sends `vA` to `(2,0)` and `vB` to `(-1,0)`: total kinetic energy
jumps from `1/2` to `5/2`.  The impulse is applied with an inverted sign
(`A.v += impulse·(-1/mA)` where an elastic collision requires
`A.v += impulse·(+1/mA)` for these `dr`, `dv`). -/
theorem bounce_pp_gains_kinetic_energy :
    (bounce_pp_pair ⟨⟨0, 0⟩, ⟨1, 0⟩, 1 / 2, 1, 0⟩ ⟨⟨1, 0⟩, ⟨0, 0⟩, 1 / 2, 1, 0⟩).1.v
        = ⟨2, 0⟩ ∧
    (bounce_pp_pair ⟨⟨0, 0⟩, ⟨1, 0⟩, 1 / 2, 1, 0⟩ ⟨⟨1, 0⟩, ⟨0, 0⟩, 1 / 2, 1, 0⟩).2.v
        = ⟨-1, 0⟩ ∧
    kineticEnergy ⟨⟨0, 0⟩, ⟨1, 0⟩, 1 / 2, 1, 0⟩ ⟨⟨1, 0⟩, ⟨0, 0⟩, 1 / 2, 1, 0⟩ = 1 / 2 ∧
    kineticEnergy
      (bounce_pp_pair ⟨⟨0, 0⟩, ⟨1, 0⟩, 1 / 2, 1, 0⟩ ⟨⟨1, 0⟩, ⟨0, 0⟩, 1 / 2, 1, 0⟩).1
      (bounce_pp_pair ⟨⟨0, 0⟩, ⟨1, 0⟩, 1 / 2, 1, 0⟩ ⟨⟨1, 0⟩, ⟨0, 0⟩, 1 / 2, 1, 0⟩).2
      = 5 / 2 := by
  have h : bounce_pp_pair ⟨⟨0, 0⟩, ⟨1, 0⟩, 1 / 2, 1, 0⟩ ⟨⟨1, 0⟩, ⟨0, 0⟩, 1 / 2, 1, 0⟩
      = (⟨⟨0, 0⟩, ⟨2, 0⟩, 1 / 2, 1, 1⟩, ⟨⟨1, 0⟩, ⟨-1, 0⟩, 1 / 2, 1, 1⟩) := by
    simp only [bounce_pp_pair, Vec2.sub, Vec2.norm2, Vec2.dot, Vec2.smul, Vec2.add]
    norm_num
  rw [h]
  simp only [kineticEnergy, Vec2.norm2]
  norm_num

/-- Event kinds (`EventType` in the sources): wall hit on x, wall hit on y,
or a particle pair collision. -/
inductive EventType where
  | P_WALL_X
  | P_WALL_Y
  | P_P
deriving DecidableEq

/-- Scheduled event (the `Event` struct of `event.h`): absolute time at
which the event occurs, primary body index `a`, secondary body index `b`
(`-1` for wall events), kind tag, and the participants' collision counters
captured at scheduling time (`collB = -1` for an absent secondary). -/
structure Event where
  t : ℝ
  a : Int
  b : Int
  type : EventType
  collA : Int
  collB : Int

/-- Simulation configuration (`SimConfig` in `simulator.h`), with the same
defaults. -/
structure SimConfig where
  W : ℝ := 10.0
  H : ℝ := 10.0
  T_end : ℝ := 12.0
  max_events : Int := 2000
  enable_rollback : Bool := true
  rollback_depth : Int := 8

/-- Rollback snapshot (`SimState` in `simulator.h`): a time and a full copy
of the particle array. -/
structure SimState where
  t : ℝ
  P : List Particle

/-- The mutable state of a `Simulator` instance: configuration, particle
array, current time, pending-event priority queue, and rollback stack.
The priority queue is modelled as the list of pushed events (popping
selects an event of minimal scheduled time, see `popRel`); the
`std::stack` is a list whose head is the top. -/
structure Simulator where
  cfg_ : SimConfig
  P_ : List Particle
  t_ : ℝ := 0.0
  pq_ : List Event := []
  undo_ : List SimState := []

/-- The `Simulator` constructor: stores the configuration and the initial
particle list and leaves the event heap, history and time (`t_ = 0.0`) at
their defaults.  It performs no validation of its inputs. -/
def mkSimulator (cfg : SimConfig) (init : List Particle) : Simulator :=
  { cfg_ := cfg, P_ := init, t_ := 0.0, pq_ := [], undo_ := [] }

namespace Simulator

/-- The `P_[i]` for an `int` index, as used throughout `simulator.cpp`.  All
reachable accesses carry indices in `[0, P_.size())`; out-of-range access is
undefined behaviour in C++ and is mapped to a default particle here. -/
def pAt (s : Simulator) (i : Int) : Particle :=
  s.P_.getD i.toNat default

/-- The `Simulator::snapshot`: no-op when rollback is disabled; otherwise, when
the stack already holds at least `rollback_depth` snapshots, the stack is
rebuilt without its bottom (oldest) element, and then the current
`(t_, P_)` is pushed. -/
def snapshot (s : Simulator) : Simulator :=
  if ¬ s.cfg_.enable_rollback then s
  else
    let trimmed :=
      if (s.undo_.length : Int) ≥ s.cfg_.rollback_depth then s.undo_.dropLast
      else s.undo_
    { s with undo_ := ⟨s.t_, s.P_⟩ :: trimmed }

/-- The `Simulator::drift_to`: ballistic update of all positions from the
current time to `T`; a no-op when `T - t_ <= 0`. -/
def drift_to (s : Simulator) (T : ℝ) : Simulator :=
  let dt := T - s.t_
  if dt ≤ 0 then s
  else { s with P_ := s.P_.map fun p => { p with r := p.r.add (p.v.smul dt) },
                t_ := T }

/-- The `Simulator::time_to_wall_x`: time until the particle's near edge reaches
the x boundary; `none` models the `+inf` sentinel for zero x velocity. -/
def time_to_wall_x (s : Simulator) (p : Particle) : Option ℝ :=
  if p.v.x > 0 then some ((s.cfg_.W - p.rad - p.r.x) / p.v.x)
  else if p.v.x < 0 then some ((p.rad - p.r.x) / p.v.x)
  else none

/-- The `Simulator::time_to_wall_y`. -/
def time_to_wall_y (s : Simulator) (p : Particle) : Option ℝ :=
  if p.v.y > 0 then some ((s.cfg_.H - p.rad - p.r.y) / p.v.y)
  else if p.v.y < 0 then some ((p.rad - p.r.y) / p.v.y)
  else none

/-- The `Simulator::time_to_pp`: first root of the quadratic for two moving
circles reaching center distance `R = A.rad + B.rad`; `none` models the
`+inf` sentinel (separating pair, negative discriminant, or a root at or
below the `1e-12` tolerance). -/
def time_to_pp (A B : Particle) : Option ℝ :=
  let dr := B.r.sub A.r
  let dv := B.v.sub A.v
  let R := A.rad + B.rad
  let dvdr := dv.dot dr
  if dvdr ≥ 0 then none
  else
    let dvdv := dv.norm2
    let drdr := dr.norm2
    let disc := dvdr * dvdr - dvdv * (drdr - R * R)
    if disc < 0 then none
    else
      let tcol := -(dvdr + Real.sqrt disc) / dvdv
      if tcol ≤ 1e-12 then none else some tcol

/-- The `Simulator::schedule_wall_events(i)`: the events this call pushes onto
the heap (an x-wall event, then a y-wall event, each only when finite and
no later than the horizon), tagged with body `i`'s current counter. -/
def schedule_wall_events (s : Simulator) (i : Int) : List Event :=
  let p := s.pAt i
  (match s.time_to_wall_x p with
   | some tx =>
       if s.t_ + tx ≤ s.cfg_.T_end then
         [⟨s.t_ + tx, i, -1, EventType.P_WALL_X, p.coll_count, -1⟩]
       else []
   | none => []) ++
  (match s.time_to_wall_y p with
   | some ty =>
       if s.t_ + ty ≤ s.cfg_.T_end then
         [⟨s.t_ + ty, i, -1, EventType.P_WALL_Y, p.coll_count, -1⟩]
       else []
   | none => [])

/-- The `Simulator::schedule_pp_events_for(i)`: the pair events this call pushes,
one for each `j` in `i+1 .. P_.size()-1` whose predicted collision is finite
and within the horizon, tagged with both current counters. -/
def schedule_pp_events_for (s : Simulator) (i : Int) : List Event :=
  (List.range s.P_.length).filterMap fun (j : Nat) =>
    if i + 1 ≤ (j : Int) then
      match time_to_pp (s.pAt i) (s.pAt j) with
      | some dt =>
          if s.t_ + dt ≤ s.cfg_.T_end then
            some ⟨s.t_ + dt, i, (j : Int), EventType.P_P,
                  (s.pAt i).coll_count, (s.pAt j).coll_count⟩
          else none
      | none => none
    else none

/-- The `Simulator::schedule_all`: the events pushed by seeding — wall events
for every body, then pair events for every body in index order. -/
def schedule_all (s : Simulator) : List Event :=
  ((List.range s.P_.length).flatMap fun (i : Nat) => s.schedule_wall_events (i : Int)) ++
  ((List.range s.P_.length).flatMap fun (i : Nat) => s.schedule_pp_events_for (i : Int))

/-- The `Simulator::undo`: failure (no state change) when rollback is disabled
or the stack is empty; otherwise restore `(t_, P_)` from the top snapshot,
pop it, clear the pending queue, and reseed from the restored state. -/
def undo (s : Simulator) : Bool × Simulator :=
  if ¬ s.cfg_.enable_rollback ∨ s.undo_ = [] then (false, s)
  else
    match s.undo_ with
    | [] => (false, s)
    | st :: rest =>
        let s1 : Simulator :=
          { s with t_ := st.t, P_ := st.P, undo_ := rest, pq_ := [] }
        (true, { s1 with pq_ := s1.pq_ ++ s1.schedule_all })

/-- The `Simulator::valid`: an event commits only when every captured collision
counter still equals the corresponding body's current counter. -/
def valid (s : Simulator) (e : Event) : Bool :=
  if e.a ≥ 0 ∧ (s.pAt e.a).coll_count ≠ e.collA then false
  else if e.type = EventType.P_P ∧ e.b ≥ 0 ∧ (s.pAt e.b).coll_count ≠ e.collB then
    false
  else true

/-- The `Simulator::bounce_wall_x`: negate `v.x` of body `i` and bump its
collision counter. -/
def bounce_wall_x (s : Simulator) (i : Int) : Simulator :=
  let p := s.pAt i
  let p' : Particle :=
    { p with v := { p.v with x := -p.v.x }, coll_count := p.coll_count + 1 }
  { s with P_ := s.P_.set i.toNat p' }

/-- The `Simulator::bounce_wall_y`. -/
def bounce_wall_y (s : Simulator) (i : Int) : Simulator :=
  let p := s.pAt i
  let p' : Particle :=
    { p with v := { p.v with y := -p.v.y }, coll_count := p.coll_count + 1 }
  { s with P_ := s.P_.set i.toNat p' }

/-- The `Simulator::bounce_pp` on the state: apply `bounce_pp_pair` to bodies
`i` and `j` and write both back. -/
def bounce_pp (s : Simulator) (i j : Int) : Simulator :=
  let AB := bounce_pp_pair (s.pAt i) (s.pAt j)
  { s with P_ := (s.P_.set i.toNat AB.1).set j.toNat AB.2 }

/-- One pop of the pending-event heap
(`std::priority_queue<Event, std::vector<Event>, EventEarlier>`): the
`EventEarlier` comparator of `event.h` (`lhs.t > rhs.t`) makes the heap a
min-heap on scheduled time, so `top()` yields an event no other pending
event strictly precedes in time, and `pop()` removes that occurrence.
The heap fixes no order among events with exactly equal times, so the pop
is a relation: `popRel pq e rest` holds when `e` sits at some position of
`pq` whose time is minimal over the whole queue and `rest` is `pq` with
that one occurrence erased. -/
def popRel (pq : List Event) (e : Event) (rest : List Event) : Prop :=
  ∃ i : Fin pq.length, pq.get i = e ∧ rest = pq.eraseIdx i.val ∧
    ∀ x ∈ pq, e.t ≤ x.t

/-- The events pushed by the `P_P` branch of `Simulator::run` after
`bounce_pp(e.a, e.b)`: for every third body `k`, a re-predicted pair event
with `e.a` and one with `e.b`, each in canonical `(min, max)` index order
and only when finite and within the horizon. -/
def pair_reschedule_events (s : Simulator) (a b : Int) : List Event :=
  (List.range s.P_.length).flatMap fun (k : Nat) =>
    if (k : Int) = a ∨ (k : Int) = b then []
    else
      (let i1 := min (k : Int) a
       let i2 := max (k : Int) a
       match time_to_pp (s.pAt i1) (s.pAt i2) with
       | some dt1 =>
           if s.t_ + dt1 ≤ s.cfg_.T_end then
             [⟨s.t_ + dt1, i1, i2, EventType.P_P,
               (s.pAt i1).coll_count, (s.pAt i2).coll_count⟩]
           else []
       | none => []) ++
      (let i1 := min (k : Int) b
       let i2 := max (k : Int) b
       match time_to_pp (s.pAt i1) (s.pAt i2) with
       | some dt2 =>
           if s.t_ + dt2 ≤ s.cfg_.T_end then
             [⟨s.t_ + dt2, i1, i2, EventType.P_P,
               (s.pAt i1).coll_count, (s.pAt i2).coll_count⟩]
           else []
       | none => [])

/-- The commit phase of one `Simulator::run` loop iteration on an event that
passed the horizon and staleness checks: snapshot, drift to the event time,
resolve according to the event kind, and push the rescheduled events. -/
def commitEvent (s : Simulator) (e : Event) : Simulator :=
  let s1 := s.snapshot
  let s2 := s1.drift_to e.t
  match e.type with
  | EventType.P_WALL_X =>
      let s3 := s2.bounce_wall_x e.a
      { s3 with pq_ := s3.pq_ ++ s3.schedule_wall_events e.a
                        ++ s3.schedule_pp_events_for e.a }
  | EventType.P_WALL_Y =>
      let s3 := s2.bounce_wall_y e.a
      { s3 with pq_ := s3.pq_ ++ s3.schedule_wall_events e.a
                        ++ s3.schedule_pp_events_for e.a }
  | EventType.P_P =>
      let s3 := s2.bounce_pp e.a e.b
      { s3 with pq_ := s3.pq_ ++ s3.schedule_wall_events e.a
                        ++ s3.schedule_wall_events e.b
                        ++ s3.pair_reschedule_events e.a e.b }

/-- Outcome of one iteration of the `while` loop in `Simulator::run`:
either the loop exits (the popped event is beyond the horizon and the loop
`break`s with that event already removed), or it continues, with the flag
recording whether the popped event was committed (`true`) or discarded as
stale (`false`). -/
inductive LoopStep where
  | exit (s' : Simulator)
  | cont (committed : Bool) (s' : Simulator)

/-- The body of one `Simulator::run` loop iteration after the pop, given
the popped event `e` and the remaining queue `rest`: `break` out of the
loop if the event lies beyond the horizon, discard it if stale, otherwise
commit it. -/
def iterOn (s : Simulator) (e : Event) (rest : List Event) : LoopStep :=
  if e.t > s.cfg_.T_end then LoopStep.exit { s with pq_ := rest }
  else if s.valid e = false then LoopStep.cont false { s with pq_ := rest }
  else LoopStep.cont true (commitEvent { s with pq_ := rest } e)

/-- The `while (!pq_.empty() && processed < cfg_.max_events)` loop of
`Simulator::run`, as a big-step relation from the processed-event count
and a state to the state at loop exit.  Each iteration pops an admissible
minimal-time event (`popRel`), so the relation admits one execution per
resolution of exactly-equal event times; everything after the pop is the
deterministic `iterOn`. -/
inductive LoopExec : Int → Simulator → Simulator → Prop where
  | done (p : Int) (s : Simulator)
      (hg : s.pq_ = [] ∨ ¬ p < s.cfg_.max_events) :
      LoopExec p s s
  | brk (p : Int) (s s' : Simulator) (e : Event) (rest : List Event)
      (hg : ¬ (s.pq_ = [] ∨ ¬ p < s.cfg_.max_events))
      (hpop : popRel s.pq_ e rest)
      (hit : s.iterOn e rest = LoopStep.exit s') :
      LoopExec p s s'
  | skip (p : Int) (s s' sf : Simulator) (e : Event) (rest : List Event)
      (hg : ¬ (s.pq_ = [] ∨ ¬ p < s.cfg_.max_events))
      (hpop : popRel s.pq_ e rest)
      (hit : s.iterOn e rest = LoopStep.cont false s')
      (hrest : LoopExec p s' sf) :
      LoopExec p s sf
  | commit (p : Int) (s s' sf : Simulator) (e : Event) (rest : List Event)
      (hg : ¬ (s.pq_ = [] ∨ ¬ p < s.cfg_.max_events))
      (hpop : popRel s.pq_ e rest)
      (hit : s.iterOn e rest = LoopStep.cont true s')
      (hrest : LoopExec (p + 1) s' sf) :
      LoopExec p s sf

/-- The `Simulator::run` as a relation on states: seed all initial events
(`schedule_all`), execute the loop from `processed = 0` under some
admissible sequence of heap pops, and finally drift every body to the
horizon time.  The final `std::cout` report is out of scope (spec
section 1). -/
def RunExec (s sf : Simulator) : Prop :=
  ∃ s1, LoopExec 0 { s with pq_ := s.pq_ ++ s.schedule_all } s1 ∧
    sf = s1.drift_to s1.cfg_.T_end

end Simulator

/-- C4 counterexample: at a concrete malformed input — box width `-5`
(inverted dimensions) and a single body with radius `-1` and mass `-1` —
construction silently accepts: it returns an ordinary `Simulator` whose
stored configuration and body list are the malformed input verbatim, with
no failure signalled (the constructor's type is total and it performs no
checks). -/
theorem mkSimulator_accepts_malformed :
    (mkSimulator { W := -5 } [⟨⟨1, 1⟩, ⟨0, 0⟩, -1, -1, 0⟩]).cfg_.W = -5 ∧
    (mkSimulator { W := -5 } [⟨⟨1, 1⟩, ⟨0, 0⟩, -1, -1, 0⟩]).P_
        = [⟨⟨1, 1⟩, ⟨0, 0⟩, -1, -1, 0⟩] ∧
    ((-1 : ℝ) ≤ 0 ∧ (-5 : ℝ) < 0) := by
  refine ⟨rfl, rfl, by norm_num⟩

/-- C4 (amended): construction never rejects malformed input.  For every
configuration and body list — in particular any containing a non-positive
radius or mass, or negative (inverted) box dimensions — the constructor
succeeds and stores the configuration and bodies verbatim, with time `0`,
no pending events and no history; validation is left entirely to the
caller. -/
theorem mkSimulator_no_validation (cfg : SimConfig) (init : List Particle)
    (hbad : (∃ p ∈ init, p.rad ≤ 0 ∨ p.m ≤ 0) ∨ cfg.W < 0 ∨ cfg.H < 0) :
    (mkSimulator cfg init).cfg_ = cfg ∧ (mkSimulator cfg init).P_ = init ∧
    (mkSimulator cfg init).t_ = 0 ∧ (mkSimulator cfg init).pq_ = [] ∧
    (mkSimulator cfg init).undo_ = [] :=
  ⟨rfl, rfl, by norm_num [mkSimulator], rfl, rfl⟩

/-- Witness for the amended C4 at a concrete malformed input. -/
theorem mkSimulator_no_validation_witness :
    (mkSimulator { H := -2 } [⟨⟨0, 0⟩, ⟨0, 0⟩, 1, -3, 0⟩]).P_
        = [⟨⟨0, 0⟩, ⟨0, 0⟩, 1, -3, 0⟩] ∧
    (mkSimulator { H := -2 } [⟨⟨0, 0⟩, ⟨0, 0⟩, 1, -3, 0⟩]).undo_ = [] :=
  ⟨(mkSimulator_no_validation _ _
      (Or.inl ⟨_, List.mem_singleton.mpr rfl, Or.inr (by norm_num)⟩)).2.1,
   (mkSimulator_no_validation { H := -2 } [⟨⟨0, 0⟩, ⟨0, 0⟩, 1, -3, 0⟩]
      (Or.inr (Or.inr (by norm_num)))).2.2.2.2⟩

/-- C5 counterexample: with `rollback_depth = 0` (and rollback enabled, the
default) a single `snapshot()` grows the history stack to one entry — the
retained count exceeds the configured bound, and nothing is evicted to
prevent it. -/
theorem snapshot_exceeds_zero_depth :
    (((mkSimulator { rollback_depth := 0 } []).snapshot).undo_.length : Int)
      > ({ rollback_depth := 0 } : SimConfig).rollback_depth := by
  simp [Simulator.snapshot, mkSimulator]

/-- C5 (amended): for every configuration with `rollback_depth ≥ 1`, the
snapshot bound is an invariant — if the history holds at most
`rollback_depth` snapshots before a `snapshot()` then it does after — and
when a push from a full stack occurs (rollback enabled, retained count
exactly `rollback_depth`), exactly the oldest retained snapshot is evicted:
the new stack is the fresh snapshot on top of all previous ones except the
bottom. -/
theorem snapshot_bounded (s : Simulator)
    (hd : 1 ≤ s.cfg_.rollback_depth)
    (hlen : (s.undo_.length : Int) ≤ s.cfg_.rollback_depth) :
    ((s.snapshot.undo_.length : Int) ≤ s.cfg_.rollback_depth) ∧
    (s.cfg_.enable_rollback = true →
      (s.undo_.length : Int) = s.cfg_.rollback_depth →
      s.snapshot.undo_ = ⟨s.t_, s.P_⟩ :: s.undo_.dropLast) := by
  constructor
  · by_cases hen : s.cfg_.enable_rollback
    · have hen' : ¬ s.cfg_.enable_rollback = false := by simp [hen]
      by_cases hfull : (s.undo_.length : Int) ≥ s.cfg_.rollback_depth
      · have hne : s.undo_ ≠ [] := by
          intro h0
          rw [h0] at hfull
          simp at hfull
          omega
        have hdrop : (s.undo_.dropLast.length : Int) = (s.undo_.length : Int) - 1 := by
          rw [List.length_dropLast]
          have : 1 ≤ s.undo_.length := List.length_pos.mpr hne
          omega
        simp only [Simulator.snapshot, hen, not_true, if_false, if_pos hfull,
          List.length_cons]
        push_cast
        omega
      · simp only [Simulator.snapshot, hen, not_true, if_false, if_neg hfull,
          List.length_cons]
        push_cast
        omega
    · simp only [Simulator.snapshot, hen, not_false_iff, if_true]
      exact hlen
  · intro hen hfullEq
    have hfull : (s.undo_.length : Int) ≥ s.cfg_.rollback_depth := le_of_eq hfullEq.symm
    simp only [Simulator.snapshot, hen, not_true, if_false, if_pos hfull]

/-- Witness for the amended C5: a full depth-1 stack evicts its only (and
oldest) snapshot on push. -/
theorem snapshot_bounded_witness :
    ((({ cfg_ := { rollback_depth := 1 }, P_ := [], t_ := 3, pq_ := [],
          undo_ := [⟨0, []⟩] } : Simulator).snapshot.undo_.length : Int) ≤ 1) ∧
    ({ cfg_ := { rollback_depth := 1 }, P_ := [], t_ := 3, pq_ := [],
        undo_ := [⟨0, []⟩] } : Simulator).snapshot.undo_ = [⟨3, []⟩] := by
  have h := snapshot_bounded
    { cfg_ := { rollback_depth := 1 }, P_ := [], t_ := 3, pq_ := [],
      undo_ := [⟨0, []⟩] } (by norm_num) (by norm_num)
  exact ⟨h.1, by rw [h.2 rfl (by norm_num)]; rfl⟩

/-- C6: `undo()` fails and leaves the whole state (time, bodies, pending
events, history) untouched when rollback is disabled or no snapshot exists;
otherwise it succeeds, restores time and every body field from the most
recent snapshot, removes that snapshot, discards every pending event, and
reseeds the queue exactly as `schedule_all` would from the restored
state. -/
theorem undo_spec (s : Simulator) :
    ((¬ s.cfg_.enable_rollback = true ∨ s.undo_ = []) → s.undo = (false, s)) ∧
    (∀ st rest, s.cfg_.enable_rollback = true → s.undo_ = st :: rest →
      s.undo = (true,
        { cfg_ := s.cfg_, P_ := st.P, t_ := st.t,
          pq_ := Simulator.schedule_all
            { cfg_ := s.cfg_, P_ := st.P, t_ := st.t, pq_ := [], undo_ := rest },
          undo_ := rest })) := by
  constructor
  · intro h
    have h' : ¬ s.cfg_.enable_rollback ∨ s.undo_ = [] := by
      rcases h with h | h
      · exact Or.inl h
      · exact Or.inr h
    simp only [Simulator.undo, if_pos h']
  · intro st rest hen hst
    have hne : ¬ (¬ s.cfg_.enable_rollback ∨ s.undo_ = []) := by
      push_neg
      exact ⟨by simp [hen], by simp [hst]⟩
    simp only [Simulator.undo]
    rw [if_neg hne, hst]
    rfl

/-- Witness for C6 at concrete inputs: `undo` fails without changing a
snapshotless simulator, and on a simulator with one snapshot it succeeds,
restores `(t_, P_)` from it, empties the history, and reseeds. -/
theorem undo_spec_witness :
    (mkSimulator {} [default]).undo = (false, mkSimulator {} [default]) ∧
    ({ cfg_ := {}, P_ := [], t_ := 7, pq_ := [⟨9, 0, -1, EventType.P_WALL_X, 0, -1⟩],
       undo_ := [⟨2, [default]⟩] } : Simulator).undo = (true,
      { cfg_ := {}, P_ := [default], t_ := 2,
        pq_ := Simulator.schedule_all
          { cfg_ := {}, P_ := [default], t_ := 2, pq_ := [], undo_ := [] },
        undo_ := [] }) :=
  ⟨(undo_spec (mkSimulator {} [default])).1 (Or.inr rfl),
   (undo_spec _).2 ⟨2, [default]⟩ [] rfl rfl⟩

/-- C7: an event is committed only when every captured counter still
matches; a popped event whose captured counter — primary (`collA`) or
secondary (`collB`) — no longer matches its body's current counter is
never applied: `valid` rejects it, and the loop iteration merely removes
it from the pending queue, leaving the simulation time, the body array and
the history stack unchanged (no snapshot, no drift, no bounce). -/
theorem stale_event_discarded (s : Simulator) (e : Event) (rest : List Event)
    (hpop : Simulator.popRel s.pq_ e rest)
    (hT : ¬ e.t > s.cfg_.T_end)
    (hstale : (0 ≤ e.a ∧ (s.pAt e.a).coll_count ≠ e.collA) ∨
      (e.type = EventType.P_P ∧ 0 ≤ e.b ∧ (s.pAt e.b).coll_count ≠ e.collB)) :
    s.valid e = false ∧
    s.iterOn e rest = Simulator.LoopStep.cont false { s with pq_ := rest } ∧
    ({ s with pq_ := rest } : Simulator).t_ = s.t_ ∧
    ({ s with pq_ := rest } : Simulator).P_ = s.P_ ∧
    ({ s with pq_ := rest } : Simulator).undo_ = s.undo_ := by
  have hv : s.valid e = false := by
    simp only [Simulator.valid]
    rcases hstale with ⟨h1, h2⟩ | ⟨h1, h2, h3⟩
    · rw [if_pos ⟨h1, h2⟩]
    · by_cases hA : e.a ≥ 0 ∧ (s.pAt e.a).coll_count ≠ e.collA
      · rw [if_pos hA]
      · rw [if_neg hA, if_pos ⟨h1, h2, h3⟩]
  refine ⟨hv, ?_, rfl, rfl, rfl⟩
  simp only [Simulator.iterOn]
  rw [if_neg hT, if_pos hv]

/-- Witness for C7 at a concrete input: a pending pair event for bodies
`0` and `1` captured body 1's counter as `0`, but body 1's current counter
is `1` (the secondary participant collided after the event was scheduled),
so the event fails validation and is discarded without any state change. -/
theorem stale_event_discarded_witness :
    ({ cfg_ := {}, P_ := [⟨⟨4, 5⟩, ⟨1, 0⟩, 1 / 2, 1, 0⟩,
         ⟨⟨6, 5⟩, ⟨-1, 0⟩, 1 / 2, 1, 1⟩], t_ := 0,
       pq_ := [⟨2, 0, 1, EventType.P_P, 0, 0⟩], undo_ := [] }
        : Simulator).valid ⟨2, 0, 1, EventType.P_P, 0, 0⟩ = false ∧
    ({ cfg_ := {}, P_ := [⟨⟨4, 5⟩, ⟨1, 0⟩, 1 / 2, 1, 0⟩,
         ⟨⟨6, 5⟩, ⟨-1, 0⟩, 1 / 2, 1, 1⟩], t_ := 0,
       pq_ := [⟨2, 0, 1, EventType.P_P, 0, 0⟩], undo_ := [] }
        : Simulator).iterOn ⟨2, 0, 1, EventType.P_P, 0, 0⟩ []
      = Simulator.LoopStep.cont false
        { cfg_ := {}, P_ := [⟨⟨4, 5⟩, ⟨1, 0⟩, 1 / 2, 1, 0⟩,
            ⟨⟨6, 5⟩, ⟨-1, 0⟩, 1 / 2, 1, 1⟩], t_ := 0,
          pq_ := [], undo_ := [] } := by
  have h := stale_event_discarded
    { cfg_ := {}, P_ := [⟨⟨4, 5⟩, ⟨1, 0⟩, 1 / 2, 1, 0⟩,
        ⟨⟨6, 5⟩, ⟨-1, 0⟩, 1 / 2, 1, 1⟩], t_ := 0,
      pq_ := [⟨2, 0, 1, EventType.P_P, 0, 0⟩], undo_ := [] }
    ⟨2, 0, 1, EventType.P_P, 0, 0⟩ []
    ⟨⟨0, by simp⟩, rfl, rfl, fun x hx =>
      le_of_eq (by rw [List.mem_singleton.mp hx])⟩
    (by norm_num)
    (Or.inr ⟨rfl, by norm_num, by
      show (1 : Int) ≠ 0
      norm_num⟩)
  exact ⟨h.1, h.2.1⟩

/-- Concrete two-body state at time `3/2`, as produced just after body 1
bounced off the right wall: body 0 at `(13/2, 5)` still moving right with
velocity `(1, 0)`, body 1 at `(19/2, 5)` now moving left with velocity
`(-1, 0)` (counter bumped to 1); box `10 × 10`, horizon `100`.  The two
bodies approach head-on and collide at time `5/2`. -/
def wallMissSim : Simulator :=
  { cfg_ := { T_end := 100 },
    P_ := [⟨⟨13 / 2, 5⟩, ⟨1, 0⟩, 1 / 2, 1, 0⟩,
           ⟨⟨19 / 2, 5⟩, ⟨-1, 0⟩, 1 / 2, 1, 1⟩],
    t_ := 3 / 2 }

/-- C2: after a wall event for body `i`, the driver reschedules pair events
with `schedule_pp_events_for(i)`, which scans only partners `j > i` — pairs
whose other index is lower than `i` are never re-predicted.  Concretely, in
`wallMissSim` (just after body 1's wall bounce) the pair `{0, 1}` has a
genuine upcoming collision (`time_to_pp = 1`, absolute time `5/2`, well
within the horizon), yet `schedule_pp_events_for 1` — everything the wall
branch pushes for pairs — is empty; the very event the claim requires is
exactly what a scan from the lower index produces. -/
theorem wall_reschedule_misses_lower_partner :
    Simulator.time_to_pp (wallMissSim.pAt 0) (wallMissSim.pAt 1) = some 1 ∧
    wallMissSim.t_ + 1 ≤ wallMissSim.cfg_.T_end ∧
    wallMissSim.schedule_pp_events_for 1 = [] ∧
    wallMissSim.schedule_pp_events_for 0
      = [⟨5 / 2, 0, 1, EventType.P_P, 0, 1⟩] := by
  have hsq : Real.sqrt 4 = 2 := by
    rw [show (4 : ℝ) = 2 ^ 2 by norm_num]
    exact Real.sqrt_sq (by norm_num)
  have hp0 : wallMissSim.pAt 0 = ⟨⟨13 / 2, 5⟩, ⟨1, 0⟩, 1 / 2, 1, 0⟩ := rfl
  have hp1 : wallMissSim.pAt 1 = ⟨⟨19 / 2, 5⟩, ⟨-1, 0⟩, 1 / 2, 1, 1⟩ := rfl
  have hpp : Simulator.time_to_pp (wallMissSim.pAt 0) (wallMissSim.pAt 1)
      = some 1 := by
    rw [hp0, hp1]
    simp only [Simulator.time_to_pp, Vec2.sub, Vec2.dot, Vec2.norm2]
    norm_num [hsq]
  refine ⟨hpp, by norm_num [wallMissSim], ?_, ?_⟩
  · simp only [Simulator.schedule_pp_events_for]
    norm_num [wallMissSim, List.range_succ]
  · simp only [Simulator.schedule_pp_events_for]
    rw [show wallMissSim.P_.length = 2 from rfl, show List.range 2 = [0, 1] by rfl]
    simp only [List.filterMap_cons, List.filterMap_nil, Nat.cast_zero, Nat.cast_one]
    rw [if_neg (by norm_num), if_pos (by norm_num)]
    rw [hpp]
    norm_num [wallMissSim, Simulator.pAt]

/-- A member of a list distinct from the entry at an erased position
survives the erasure: `eraseIdx` drops exactly that one occurrence. -/
theorem mem_eraseIdx_of_ne : ∀ (l : List Event) (i : Nat) (hi : i < l.length)
    (x : Event), x ∈ l → x ≠ l.get ⟨i, hi⟩ → x ∈ l.eraseIdx i := by
  intro l
  induction l with
  | nil => intro i hi; cases hi
  | cons a as ih =>
    intro i hi x hx hne
    cases i with
    | zero =>
      rcases List.mem_cons.mp hx with h | h
      · exact absurd h hne
      · exact h
    | succ m =>
      have hm : m < as.length := Nat.lt_of_succ_lt_succ hi
      rcases List.mem_cons.mp hx with h | h
      · rw [h]
        exact List.mem_cons_self a _
      · exact List.mem_cons_of_mem a (ih m hm x h hne)

/-- The popped event is a member of the queue. -/
theorem popRel_mem {pq : List Event} {e : Event} {rest : List Event}
    (h : Simulator.popRel pq e rest) : e ∈ pq := by
  obtain ⟨i, hget, -, -⟩ := h
  exact List.mem_iff_get.mpr ⟨i, hget⟩

/-- The popped event has minimal scheduled time. -/
theorem popRel_min {pq : List Event} {e : Event} {rest : List Event}
    (h : Simulator.popRel pq e rest) : ∀ x ∈ pq, e.t ≤ x.t := by
  obtain ⟨i, -, -, hmin⟩ := h
  exact hmin

/-- Every event left by a pop was in the queue. -/
theorem popRel_rest_mem {pq : List Event} {e : Event} {rest : List Event}
    (h : Simulator.popRel pq e rest) : ∀ x ∈ rest, x ∈ pq := by
  obtain ⟨i, -, hrest, -⟩ := h
  intro x hx
  rw [hrest] at hx
  exact (List.eraseIdx_sublist pq i.val).subset hx

/-- An event of the queue other than the popped one survives the pop. -/
theorem popRel_mem_rest {pq : List Event} {e : Event} {rest : List Event}
    (h : Simulator.popRel pq e rest) : ∀ x ∈ pq, x ≠ e → x ∈ rest := by
  obtain ⟨i, hget, hrest, -⟩ := h
  intro x hx hne
  rw [hrest]
  exact mem_eraseIdx_of_ne pq i.val i.isLt x hx (fun hh => hne (hh.trans hget))

/-- A pop removes exactly one event. -/
theorem popRel_length {pq : List Event} {e : Event} {rest : List Event}
    (h : Simulator.popRel pq e rest) : rest.length + 1 = pq.length := by
  obtain ⟨i, -, hrest, -⟩ := h
  rw [hrest]
  exact List.length_eraseIdx_add_one i.isLt

/-- A nonempty queue always offers an admissible pop. -/
theorem popRel_exists (pq : List Event) (hne : pq ≠ []) :
    ∃ e rest, Simulator.popRel pq e rest := by
  rcases hm : pq.argmin (fun x => x.t) with _ | e
  · rw [List.argmin_eq_none] at hm
    exact absurd hm hne
  · have hmem : e ∈ pq := List.argmin_mem hm
    obtain ⟨i, hi⟩ := List.mem_iff_get.mp hmem
    exact ⟨e, pq.eraseIdx i.val, i, hi, rfl,
      fun x hx => List.le_of_mem_argmin hx hm⟩

/-- Drifting never moves the clock backwards: the new time is the max of
the old time and the target. -/
theorem Simulator.drift_to_t (s : Simulator) (T : ℝ) :
    (s.drift_to T).t_ = max s.t_ T := by
  simp only [Simulator.drift_to]
  by_cases h : T - s.t_ ≤ 0
  · rw [if_pos h, max_eq_left (by linarith)]
  · rw [if_neg h]
    exact (max_eq_right (by linarith)).symm

/-- The `snapshot` changes neither configuration, time, bodies nor queue. -/
theorem Simulator.snapshot_fields (s : Simulator) :
    (s.snapshot.cfg_ = s.cfg_) ∧ (s.snapshot.t_ = s.t_) ∧
    (s.snapshot.P_ = s.P_) ∧ (s.snapshot.pq_ = s.pq_) := by
  simp only [Simulator.snapshot]
  by_cases h : s.cfg_.enable_rollback
  · rw [if_neg (by simp [h])]
    exact ⟨rfl, rfl, rfl, rfl⟩
  · rw [if_pos (by simp [h])]
    exact ⟨rfl, rfl, rfl, rfl⟩

/-- A loop iteration that exits the loop is the pop-then-`break` of an
event beyond the horizon: nothing but the pending queue changes. -/
theorem iterOn_exit_fields (s s' : Simulator) (e : Event) (rest : List Event)
    (h : s.iterOn e rest = Simulator.LoopStep.exit s') :
    s'.t_ = s.t_ ∧ s'.cfg_ = s.cfg_ ∧ s'.P_ = s.P_ ∧ s'.undo_ = s.undo_ ∧
    s'.pq_ = rest ∧ e.t > s.cfg_.T_end := by
  simp only [Simulator.iterOn] at h
  by_cases hT : e.t > s.cfg_.T_end
  · rw [if_pos hT] at h
    cases h
    exact ⟨rfl, rfl, rfl, rfl, rfl, hT⟩
  · rw [if_neg hT] at h
    by_cases hv : s.valid e = false
    · rw [if_pos hv] at h
      cases h
    · rw [if_neg hv] at h
      cases h

/-- A loop iteration that continues works on an event within the horizon,
and either discards it as stale (`committed = false`, only the queue
changes) or commits it. -/
theorem iterOn_cont_fields (s s' : Simulator) (b : Bool) (e : Event)
    (rest : List Event)
    (h : s.iterOn e rest = Simulator.LoopStep.cont b s') :
    ¬ e.t > s.cfg_.T_end ∧
    ((b = false ∧ s.valid e = false ∧ s' = { s with pq_ := rest }) ∨
     (b = true ∧ ¬ s.valid e = false ∧
       s' = Simulator.commitEvent { s with pq_ := rest } e)) := by
  simp only [Simulator.iterOn] at h
  by_cases hT : e.t > s.cfg_.T_end
  · rw [if_pos hT] at h
    cases h
  · rw [if_neg hT] at h
    by_cases hv : s.valid e = false
    · rw [if_pos hv] at h
      cases h
      exact ⟨hT, Or.inl ⟨rfl, hv, rfl⟩⟩
    · rw [if_neg hv] at h
      cases h
      exact ⟨hT, Or.inr ⟨rfl, hv, rfl⟩⟩

/-- Committing an event advances the clock to the event time (or keeps the
current time if the event time does not exceed it) and preserves the
configuration. -/
theorem Simulator.commitEvent_t (s : Simulator) (e : Event) :
    (s.commitEvent e).t_ = max s.t_ e.t ∧ (s.commitEvent e).cfg_ = s.cfg_ := by
  have hsnap := Simulator.snapshot_fields s
  cases he : e.type <;>
    simp only [Simulator.commitEvent, he, Simulator.bounce_wall_x,
      Simulator.bounce_wall_y, Simulator.bounce_pp] <;>
    exact ⟨by rw [Simulator.drift_to_t, hsnap.2.1], by
      show (s.snapshot.drift_to e.t).cfg_ = s.cfg_
      simp only [Simulator.drift_to]
      by_cases hd : e.t - s.snapshot.t_ ≤ 0
      · rw [if_pos hd]; exact hsnap.1
      · rw [if_neg hd]; exact hsnap.1⟩

/-- Throughout the driver loop the clock never passes the horizon (events
beyond it `break` before drifting), and the configuration is never
touched. -/
theorem LoopExec_t_le : ∀ (p : Int) (s sf : Simulator),
    Simulator.LoopExec p s sf → s.t_ ≤ s.cfg_.T_end →
    sf.t_ ≤ sf.cfg_.T_end ∧ sf.cfg_ = s.cfg_ := by
  intro p s sf h
  induction h with
  | done p s hg => exact fun ht => ⟨ht, rfl⟩
  | brk p s s' e rest hg hpop hit =>
    intro ht
    obtain ⟨ht', hcfg, -, -, -, -⟩ := iterOn_exit_fields s s' e rest hit
    exact ⟨by rw [ht', hcfg]; exact ht, hcfg⟩
  | skip p s s' sf e rest hg hpop hit hrest ih =>
    intro ht
    obtain ⟨hT, hcase⟩ := iterOn_cont_fields s s' false e rest hit
    rcases hcase with ⟨-, -, hs'⟩ | ⟨hb, -, -⟩
    · have hpre : s'.t_ ≤ s'.cfg_.T_end := by rw [hs']; exact ht
      obtain ⟨h1, h2⟩ := ih hpre
      exact ⟨h1, by rw [h2, hs']⟩
    · cases hb
  | commit p s s' sf e rest hg hpop hit hrest ih =>
    intro ht
    obtain ⟨hT, hcase⟩ := iterOn_cont_fields s s' true e rest hit
    rcases hcase with ⟨hb, -, -⟩ | ⟨-, -, hs'⟩
    · cases hb
    · have hct := Simulator.commitEvent_t ({ s with pq_ := rest }) e
      have hpre : s'.t_ ≤ s'.cfg_.T_end := by
        rw [hs', hct.1, hct.2]
        show max s.t_ e.t ≤ s.cfg_.T_end
        exact max_le ht (not_lt.mp hT)
      obtain ⟨h1, h2⟩ := ih hpre
      refine ⟨h1, ?_⟩
      rw [h2, hs', hct.2]

/-- When the loop guard already fails, the only execution is the immediate
exit with the state unchanged. -/
theorem LoopExec_guard_stop (p : Int) (s sf : Simulator)
    (h : Simulator.LoopExec p s sf)
    (hg : s.pq_ = [] ∨ ¬ p < s.cfg_.max_events) : sf = s := by
  cases h
  all_goals first
  | rfl
  | exact absurd hg (by assumption)

/-- The wall and pair resolvers touch only the body array, preserving its
length. -/
theorem bounce_fields (s : Simulator) (i j : Int) :
    ((s.bounce_wall_x i).cfg_ = s.cfg_ ∧ (s.bounce_wall_x i).t_ = s.t_ ∧
      (s.bounce_wall_x i).pq_ = s.pq_ ∧
      (s.bounce_wall_x i).P_.length = s.P_.length) ∧
    ((s.bounce_wall_y i).cfg_ = s.cfg_ ∧ (s.bounce_wall_y i).t_ = s.t_ ∧
      (s.bounce_wall_y i).pq_ = s.pq_ ∧
      (s.bounce_wall_y i).P_.length = s.P_.length) ∧
    ((s.bounce_pp i j).cfg_ = s.cfg_ ∧ (s.bounce_pp i j).t_ = s.t_ ∧
      (s.bounce_pp i j).pq_ = s.pq_ ∧
      (s.bounce_pp i j).P_.length = s.P_.length) := by
  refine ⟨⟨rfl, rfl, rfl, ?_⟩, ⟨rfl, rfl, rfl, ?_⟩, ⟨rfl, rfl, rfl, ?_⟩⟩ <;>
    simp [Simulator.bounce_wall_x, Simulator.bounce_wall_y, Simulator.bounce_pp]

/-- The `drift_to` changes neither configuration, queue, history nor body
count. -/
theorem drift_to_fields (s : Simulator) (T : ℝ) :
    (s.drift_to T).cfg_ = s.cfg_ ∧ (s.drift_to T).pq_ = s.pq_ ∧
    (s.drift_to T).undo_ = s.undo_ ∧ (s.drift_to T).P_.length = s.P_.length := by
  simp only [Simulator.drift_to]
  by_cases hd : T - s.t_ ≤ 0
  · rw [if_pos hd]
    exact ⟨rfl, rfl, rfl, rfl⟩
  · rw [if_neg hd]
    exact ⟨rfl, rfl, rfl, List.length_map _ _⟩

/-- The wall scheduler pushes at most two events. -/
theorem schedule_wall_events_length (s : Simulator) (i : Int) :
    (s.schedule_wall_events i).length ≤ 2 := by
  simp only [Simulator.schedule_wall_events, List.length_append]
  rcases htx : s.time_to_wall_x (s.pAt i) with _ | tx <;>
    rcases hty : s.time_to_wall_y (s.pAt i) with _ | ty <;>
    dsimp only
  · simp
  · by_cases hg : s.t_ + ty ≤ s.cfg_.T_end
    · rw [if_pos hg]
      simp
    · rw [if_neg hg]
      simp
  · by_cases hg : s.t_ + tx ≤ s.cfg_.T_end
    · rw [if_pos hg]
      simp
    · rw [if_neg hg]
      simp
  · by_cases hgx : s.t_ + tx ≤ s.cfg_.T_end
    · rw [if_pos hgx]
      by_cases hgy : s.t_ + ty ≤ s.cfg_.T_end
      · rw [if_pos hgy]
        simp
      · rw [if_neg hgy]
        simp
    · rw [if_neg hgx]
      by_cases hgy : s.t_ + ty ≤ s.cfg_.T_end
      · rw [if_pos hgy]
        simp
      · rw [if_neg hgy]
        simp

/-- The pair scheduler for one body pushes at most one event per other
body. -/
theorem schedule_pp_events_for_length (s : Simulator) (i : Int) :
    (s.schedule_pp_events_for i).length ≤ s.P_.length := by
  simp only [Simulator.schedule_pp_events_for]
  exact le_trans (List.length_filterMap_le _ _) (le_of_eq (List.length_range _))

/-- Length bound for a `flatMap` whose pieces are uniformly short. -/
theorem length_flatMap_le (l : List Nat) (f : Nat → List Event) (c : Nat)
    (h : ∀ k ∈ l, (f k).length ≤ c) : (l.flatMap f).length ≤ l.length * c := by
  induction l with
  | nil => simp
  | cons x xs ih =>
    simp only [List.flatMap_cons, List.length_append, List.length_cons]
    have h1 := h x (List.mem_cons_self x xs)
    have h2 := ih fun k hk => h k (List.mem_cons_of_mem x hk)
    calc (f x).length + (xs.flatMap f).length ≤ c + xs.length * c := by omega
    _ = (xs.length + 1) * c := by ring

/-- The pair-branch reschedule loop pushes at most two events per third
body. -/
theorem pair_reschedule_events_length (s : Simulator) (a b : Int) :
    (s.pair_reschedule_events a b).length ≤ 2 * s.P_.length := by
  simp only [Simulator.pair_reschedule_events]
  refine le_trans (length_flatMap_le _ _ 2 ?_)
    (le_of_eq (by rw [List.length_range]; ring))
  intro k hk
  have h1 : ∀ (i1 i2 : Int),
      (match Simulator.time_to_pp (s.pAt i1) (s.pAt i2) with
       | some dt =>
           if s.t_ + dt ≤ s.cfg_.T_end then
             [(⟨s.t_ + dt, i1, i2, EventType.P_P,
               (s.pAt i1).coll_count, (s.pAt i2).coll_count⟩ : Event)]
           else []
       | none => []).length ≤ 1 := by
    intro i1 i2
    rcases hpp : Simulator.time_to_pp (s.pAt i1) (s.pAt i2) with _ | dt <;>
      dsimp only
    · simp
    · by_cases hg : s.t_ + dt ≤ s.cfg_.T_end
      · rw [if_pos hg]
        simp
      · rw [if_neg hg]
        simp
  by_cases hab : (k : Int) = a ∨ (k : Int) = b
  · rw [if_pos hab]
    simp
  · rw [if_neg hab, List.length_append]
    have ha := h1 (min (k : Int) a) (max (k : Int) a)
    have hb := h1 (min (k : Int) b) (max (k : Int) b)
    omega

/-- The commit phase preserves the configuration and the body count and
pushes at most `2·n + 4` events on top of the queue it starts from. -/
theorem commitEvent_fields (s : Simulator) (e : Event) :
    (s.commitEvent e).cfg_ = s.cfg_ ∧
    (s.commitEvent e).P_.length = s.P_.length ∧
    (s.commitEvent e).pq_.length ≤ s.pq_.length + (2 * s.P_.length + 4) := by
  have hsn := Simulator.snapshot_fields s
  have hdr := drift_to_fields s.snapshot e.t
  have hc2 : (s.snapshot.drift_to e.t).cfg_ = s.cfg_ := hdr.1.trans hsn.1
  have hp2 : (s.snapshot.drift_to e.t).P_.length = s.P_.length := by
    rw [hdr.2.2.2, hsn.2.2.1]
  have hq2 : (s.snapshot.drift_to e.t).pq_ = s.pq_ := hdr.2.1.trans hsn.2.2.2
  cases he : e.type
  · simp only [Simulator.commitEvent, he]
    refine ⟨?_, ?_, ?_⟩
    · show ((s.snapshot.drift_to e.t).bounce_wall_x e.a).cfg_ = s.cfg_
      rw [(bounce_fields (s.snapshot.drift_to e.t) e.a e.b).1.1]
      exact hc2
    · show (((s.snapshot.drift_to e.t).bounce_wall_x e.a).P_).length
        = s.P_.length
      rw [(bounce_fields (s.snapshot.drift_to e.t) e.a e.b).1.2.2.2]
      exact hp2
    · show (((s.snapshot.drift_to e.t).bounce_wall_x e.a).pq_
          ++ ((s.snapshot.drift_to e.t).bounce_wall_x e.a).schedule_wall_events
              e.a
          ++ ((s.snapshot.drift_to e.t).bounce_wall_x
              e.a).schedule_pp_events_for e.a).length
        ≤ s.pq_.length + (2 * s.P_.length + 4)
      simp only [List.length_append]
      rw [(bounce_fields (s.snapshot.drift_to e.t) e.a e.b).1.2.2.1, hq2]
      have hw := schedule_wall_events_length
        ((s.snapshot.drift_to e.t).bounce_wall_x e.a) e.a
      have hp := schedule_pp_events_for_length
        ((s.snapshot.drift_to e.t).bounce_wall_x e.a) e.a
      have hlen : ((s.snapshot.drift_to e.t).bounce_wall_x e.a).P_.length
          = s.P_.length := by
        rw [(bounce_fields (s.snapshot.drift_to e.t) e.a e.b).1.2.2.2]
        exact hp2
      rw [hlen] at hp
      omega
  · simp only [Simulator.commitEvent, he]
    refine ⟨?_, ?_, ?_⟩
    · show ((s.snapshot.drift_to e.t).bounce_wall_y e.a).cfg_ = s.cfg_
      rw [(bounce_fields (s.snapshot.drift_to e.t) e.a e.b).2.1.1]
      exact hc2
    · show (((s.snapshot.drift_to e.t).bounce_wall_y e.a).P_).length
        = s.P_.length
      rw [(bounce_fields (s.snapshot.drift_to e.t) e.a e.b).2.1.2.2.2]
      exact hp2
    · show (((s.snapshot.drift_to e.t).bounce_wall_y e.a).pq_
          ++ ((s.snapshot.drift_to e.t).bounce_wall_y e.a).schedule_wall_events
              e.a
          ++ ((s.snapshot.drift_to e.t).bounce_wall_y
              e.a).schedule_pp_events_for e.a).length
        ≤ s.pq_.length + (2 * s.P_.length + 4)
      simp only [List.length_append]
      rw [(bounce_fields (s.snapshot.drift_to e.t) e.a e.b).2.1.2.2.1, hq2]
      have hw := schedule_wall_events_length
        ((s.snapshot.drift_to e.t).bounce_wall_y e.a) e.a
      have hp := schedule_pp_events_for_length
        ((s.snapshot.drift_to e.t).bounce_wall_y e.a) e.a
      have hlen : ((s.snapshot.drift_to e.t).bounce_wall_y e.a).P_.length
          = s.P_.length := by
        rw [(bounce_fields (s.snapshot.drift_to e.t) e.a e.b).2.1.2.2.2]
        exact hp2
      rw [hlen] at hp
      omega
  · simp only [Simulator.commitEvent, he]
    refine ⟨?_, ?_, ?_⟩
    · show ((s.snapshot.drift_to e.t).bounce_pp e.a e.b).cfg_ = s.cfg_
      rw [(bounce_fields (s.snapshot.drift_to e.t) e.a e.b).2.2.1]
      exact hc2
    · show (((s.snapshot.drift_to e.t).bounce_pp e.a e.b).P_).length
        = s.P_.length
      rw [(bounce_fields (s.snapshot.drift_to e.t) e.a e.b).2.2.2.2.2]
      exact hp2
    · show ((((s.snapshot.drift_to e.t).bounce_pp e.a e.b).pq_
          ++ ((s.snapshot.drift_to e.t).bounce_pp
              e.a e.b).schedule_wall_events e.a
          ++ ((s.snapshot.drift_to e.t).bounce_pp
              e.a e.b).schedule_wall_events e.b)
          ++ ((s.snapshot.drift_to e.t).bounce_pp
              e.a e.b).pair_reschedule_events e.a e.b).length
        ≤ s.pq_.length + (2 * s.P_.length + 4)
      simp only [List.length_append]
      rw [(bounce_fields (s.snapshot.drift_to e.t) e.a e.b).2.2.2.2.1, hq2]
      have hwa := schedule_wall_events_length
        ((s.snapshot.drift_to e.t).bounce_pp e.a e.b) e.a
      have hwb := schedule_wall_events_length
        ((s.snapshot.drift_to e.t).bounce_pp e.a e.b) e.b
      have hpr := pair_reschedule_events_length
        ((s.snapshot.drift_to e.t).bounce_pp e.a e.b) e.a e.b
      have hlen : ((s.snapshot.drift_to e.t).bounce_pp e.a e.b).P_.length
          = s.P_.length := by
        rw [(bounce_fields (s.snapshot.drift_to e.t) e.a e.b).2.2.2.2.2]
        exact hp2
      rw [hlen] at hpr
      omega

/-- Iteration budget of the driver loop: each discarded pop shrinks the
queue and each commit moves the processed counter towards the cap while
pushing at most `2·n + 4` events, so this measure strictly decreases along
every continuing iteration. -/
def loopMeasure (p : Int) (s : Simulator) : Nat :=
  (s.cfg_.max_events - p).toNat * (2 * s.P_.length + 6) + s.pq_.length

/-- The driver loop always completes: from every state, every admissible
sequence of pops reaches a loop exit within the measure (stated here as
the existence of a complete execution, proved by the strictly decreasing
measure). -/
theorem LoopExec_total : ∀ (fuel : Nat) (p : Int) (s : Simulator),
    loopMeasure p s ≤ fuel → ∃ sf, Simulator.LoopExec p s sf := by
  intro fuel
  induction fuel with
  | zero =>
    intro p s h
    have h2 : s.pq_.length ≤ loopMeasure p s := Nat.le_add_left _ _
    have hlen : s.pq_.length = 0 := by omega
    exact ⟨s, Simulator.LoopExec.done p s (Or.inl (List.length_eq_zero.mp hlen))⟩
  | succ n ih =>
    intro p s h
    by_cases hg : s.pq_ = [] ∨ ¬ p < s.cfg_.max_events
    · exact ⟨s, Simulator.LoopExec.done p s hg⟩
    · have hg2 := hg
      push_neg at hg2
      obtain ⟨e, rest, hpop⟩ := popRel_exists s.pq_ hg2.1
      have hrlen : rest.length + 1 = s.pq_.length := popRel_length hpop
      rcases hit : s.iterOn e rest with s' | ⟨b, s'⟩
      · exact ⟨s', Simulator.LoopExec.brk p s s' e rest hg hpop hit⟩
      · obtain ⟨hT, hcase⟩ := iterOn_cont_fields s s' b e rest hit
        cases b
        · rcases hcase with ⟨-, -, hs'⟩ | ⟨hb, -, -⟩
          · have hMs : loopMeasure p s = (s.cfg_.max_events - p).toNat
                * (2 * s.P_.length + 6) + s.pq_.length := rfl
            have hMr : loopMeasure p ({ s with pq_ := rest } : Simulator)
                = (s.cfg_.max_events - p).toNat
                  * (2 * s.P_.length + 6) + rest.length := rfl
            have hmeq : loopMeasure p ({ s with pq_ := rest } : Simulator) + 1
                = loopMeasure p s := by
              rw [hMs, hMr, ← hrlen]
              exact add_assoc _ _ _
            have hm : loopMeasure p s' ≤ n := by
              rw [hs']
              omega
            obtain ⟨sf, hsf⟩ := ih p s' hm
            exact ⟨sf, Simulator.LoopExec.skip p s s' sf e rest hg hpop hit hsf⟩
          · cases hb
        · rcases hcase with ⟨hb, -, -⟩ | ⟨-, -, hs'⟩
          · cases hb
          · have hcf := commitEvent_fields ({ s with pq_ := rest } : Simulator) e
            have hcfg' : s'.cfg_ = s.cfg_ := by
              rw [hs']
              exact hcf.1
            have hP' : s'.P_.length = s.P_.length := by
              rw [hs']
              exact hcf.2.1
            have hq' : s'.pq_.length ≤ rest.length + (2 * s.P_.length + 4) := by
              rw [hs']
              exact hcf.2.2
            have haA : (s.cfg_.max_events - p).toNat
                = (s.cfg_.max_events - (p + 1)).toNat + 1 := by
              have hlt := hg2.2
              omega
            have hMs : loopMeasure p s
                = (s.cfg_.max_events - (p + 1)).toNat * (2 * s.P_.length + 6)
                  + (2 * s.P_.length + 6) + s.pq_.length := by
              show (s.cfg_.max_events - p).toNat * (2 * s.P_.length + 6)
                  + s.pq_.length = _
              rw [haA]
              ring
            have hM' : loopMeasure (p + 1) s'
                = (s.cfg_.max_events - (p + 1)).toNat * (2 * s.P_.length + 6)
                  + s'.pq_.length := by
              show (s'.cfg_.max_events - (p + 1)).toNat
                  * (2 * s'.P_.length + 6) + s'.pq_.length = _
              rw [hcfg', hP']
            have hm : loopMeasure (p + 1) s' ≤ n := by
              rw [hM']
              rw [hMs] at h
              omega
            obtain ⟨sf, hsf⟩ := ih (p + 1) s' hm
            exact ⟨sf, Simulator.LoopExec.commit p s s' sf e rest hg hpop hit hsf⟩

/-- The horizon drift at the end of `run`: drifting from a time not past
`T` moves every body ballistically by exactly `T - t_`. -/
theorem drift_to_P_map (s : Simulator) (T : ℝ) (h : s.t_ ≤ T) :
    (s.drift_to T).P_
      = s.P_.map fun p => { p with r := p.r.add (p.v.smul (T - s.t_)) } := by
  simp only [Simulator.drift_to]
  by_cases hd : T - s.t_ ≤ 0
  · rw [if_pos hd]
    have h0 : T - s.t_ = 0 := le_antisymm hd (by linarith)
    rw [h0]
    have hpt : ∀ p : Particle,
        ({ p with r := p.r.add (p.v.smul 0) } : Particle) = p := by
      intro p
      have hr : p.r.add (p.v.smul 0) = p.r := by
        ext <;> simp [Vec2.add, Vec2.smul]
      rw [hr]
    exact ((List.map_congr_left fun a _ => hpt a).trans (List.map_id _)).symm
  · rw [if_neg hd]

/-- The state entering the `run` loop: time zero, all initial events
seeded. -/
def seedSim (cfg : SimConfig) (P0 : List Particle) : Simulator :=
  { mkSimulator cfg P0 with
    pq_ := (mkSimulator cfg P0).pq_ ++ (mkSimulator cfg P0).schedule_all }

/-- C9 (amended): for every configuration with a non-negative horizon and
every initial body list, `run()` terminates: a complete execution of the
loop exists, and every execution ends with the simulation time exactly
`T_end`, with the bodies of the loop-exit state drifted ballistically
through the remaining time `T_end - t`; in particular, when the event cap
is zero or negative (so no event is ever committed), every body's final
position is its initial position plus its velocity times `T_end`. -/
theorem run_reaches_horizon (cfg : SimConfig) (init : List Particle)
    (h0 : 0 ≤ cfg.T_end) :
    (∃ sf, Simulator.RunExec (mkSimulator cfg init) sf) ∧
    (∀ sf, Simulator.RunExec (mkSimulator cfg init) sf →
      sf.t_ = cfg.T_end ∧
      (∃ s1, Simulator.LoopExec 0 (seedSim cfg init) s1 ∧ s1.t_ ≤ cfg.T_end ∧
        sf.P_ = s1.P_.map fun p =>
          { p with r := p.r.add (p.v.smul (cfg.T_end - s1.t_)) }) ∧
      (cfg.max_events ≤ 0 →
        sf.P_ = init.map fun p =>
          { p with r := p.r.add (p.v.smul cfg.T_end) })) := by
  have hT0 : (seedSim cfg init).t_ ≤ (seedSim cfg init).cfg_.T_end := by
    show (0.0 : ℝ) ≤ cfg.T_end
    rw [show (0.0 : ℝ) = 0 by norm_num]
    exact h0
  constructor
  · obtain ⟨s1, hs1⟩ := LoopExec_total (loopMeasure 0 (seedSim cfg init)) 0
      (seedSim cfg init) le_rfl
    exact ⟨s1.drift_to s1.cfg_.T_end, s1, hs1, rfl⟩
  · intro sf hsf
    obtain ⟨s1, hloop, hdrift⟩ := hsf
    have hloop' : Simulator.LoopExec 0 (seedSim cfg init) s1 := hloop
    obtain ⟨hle1, hcfg1⟩ := LoopExec_t_le 0 (seedSim cfg init) s1 hloop' hT0
    have hcfgT : s1.cfg_.T_end = cfg.T_end := by
      rw [hcfg1]
      rfl
    have hle1' : s1.t_ ≤ cfg.T_end := by
      rw [← hcfgT]
      exact hle1
    refine ⟨?_, ⟨s1, hloop', hle1', ?_⟩, ?_⟩
    · rw [hdrift, Simulator.drift_to_t, hcfgT]
      exact max_eq_right hle1'
    · rw [hdrift, hcfgT]
      exact drift_to_P_map s1 cfg.T_end hle1'
    · intro hcap
      have hstop : ¬ (0 : Int) < (seedSim cfg init).cfg_.max_events := by
        show ¬ (0 : Int) < cfg.max_events
        omega
      have hs1 : s1 = seedSim cfg init :=
        LoopExec_guard_stop 0 (seedSim cfg init) s1 hloop' (Or.inr hstop)
      have hsc : cfg.T_end - (seedSim cfg init).t_ = cfg.T_end := by
        show cfg.T_end - (0.0 : ℝ) = cfg.T_end
        norm_num
      rw [hdrift, hcfgT, drift_to_P_map s1 cfg.T_end hle1', hs1]
      show init.map _ = init.map _
      refine List.map_congr_left fun q hq => ?_
      rw [hsc]

/-- Witness for the amended C9: with the default configuration but a zero
event cap and no bodies, an execution of `run` exists, and every execution
ends at time `12` with an empty body list. -/
theorem run_reaches_horizon_witness :
    (∃ sf, Simulator.RunExec (mkSimulator { max_events := 0 } []) sf) ∧
    (∀ sf, Simulator.RunExec (mkSimulator { max_events := 0 } []) sf →
      sf.t_ = (12 : ℝ) ∧ sf.P_ = []) := by
  have h := run_reaches_horizon { max_events := 0 } [] (by norm_num)
  refine ⟨h.1, fun sf hsf => ?_⟩
  obtain ⟨ht, -, hcap⟩ := h.2 sf hsf
  refine ⟨ht.trans (by norm_num), ?_⟩
  rw [hcap (by norm_num)]
  exact List.map_nil

/-- C9 counterexample: with a negative horizon (`T_end = -1`, a
configuration the claim quantifies over) and no bodies, `run()` has a
complete execution, and every execution terminates with the simulation
time still `0`, not `T_end`: the final `drift_to(T_end)` is a guarded
no-op whenever `T_end < t_`. -/
theorem run_ignores_negative_horizon :
    (∃ sf, Simulator.RunExec (mkSimulator { T_end := -1 } []) sf) ∧
    (∀ sf, Simulator.RunExec (mkSimulator { T_end := -1 } []) sf →
      sf.t_ = 0) ∧
    ((0 : ℝ) ≠ -1) := by
  have hq : (seedSim { T_end := -1 } ([] : List Particle)).pq_ = [] := by
    show ([] : List Event) ++ Simulator.schedule_all _ = []
    rw [List.nil_append]
    simp [Simulator.schedule_all, mkSimulator]
  have ht0 : ∀ sf, Simulator.RunExec (mkSimulator { T_end := -1 } []) sf →
      sf.t_ = 0 := by
    intro sf hsf
    obtain ⟨s1, hloop, hdrift⟩ := hsf
    have hloop' : Simulator.LoopExec 0 (seedSim { T_end := -1 } []) s1 := hloop
    have hs1 : s1 = seedSim { T_end := -1 } [] :=
      LoopExec_guard_stop 0 _ s1 hloop' (Or.inl hq)
    rw [hdrift, hs1]
    simp only [Simulator.drift_to]
    rw [if_pos (by
      show (-1 : ℝ) - (0.0 : ℝ) ≤ 0
      norm_num)]
    show (0.0 : ℝ) = 0
    norm_num
  refine ⟨?_, ht0, by norm_num⟩
  refine ⟨(seedSim { T_end := -1 } []).drift_to
      (seedSim { T_end := -1 } ([] : List Particle)).cfg_.T_end,
    seedSim { T_end := -1 } [], ?_, rfl⟩
  exact Simulator.LoopExec.done 0 _ (Or.inl hq)

/-- Agreement on every piece of state the physics can observe: identical
box, horizon and event cap, bodies, time and pending queue — but possibly
different rollback settings and histories. -/
def coreAgrees (s1 s2 : Simulator) : Prop :=
  s1.cfg_.W = s2.cfg_.W ∧ s1.cfg_.H = s2.cfg_.H ∧ s1.cfg_.T_end = s2.cfg_.T_end ∧
  s1.cfg_.max_events = s2.cfg_.max_events ∧
  s1.P_ = s2.P_ ∧ s1.t_ = s2.t_ ∧ s1.pq_ = s2.pq_

/-- The `schedule_wall_events` reads only core-agreed state. -/
theorem coreAgrees_wall_events (s1 s2 : Simulator) (h : coreAgrees s1 s2)
    (i : Int) : s1.schedule_wall_events i = s2.schedule_wall_events i := by
  obtain ⟨hW, hH, hT, hM, hP, ht, hq⟩ := h
  simp only [Simulator.schedule_wall_events, Simulator.time_to_wall_x,
    Simulator.time_to_wall_y, Simulator.pAt, hP, ht, hW, hH, hT]

/-- The `schedule_pp_events_for` reads only core-agreed state. -/
theorem coreAgrees_pp_events (s1 s2 : Simulator) (h : coreAgrees s1 s2)
    (i : Int) : s1.schedule_pp_events_for i = s2.schedule_pp_events_for i := by
  obtain ⟨hW, hH, hT, hM, hP, ht, hq⟩ := h
  simp only [Simulator.schedule_pp_events_for, Simulator.pAt, hP, ht, hT]

/-- The `pair_reschedule_events` reads only core-agreed state. -/
theorem coreAgrees_pair_resched (s1 s2 : Simulator) (h : coreAgrees s1 s2)
    (a b : Int) : s1.pair_reschedule_events a b = s2.pair_reschedule_events a b := by
  obtain ⟨hW, hH, hT, hM, hP, ht, hq⟩ := h
  simp only [Simulator.pair_reschedule_events, Simulator.pAt, hP, ht, hT]

/-- The `schedule_all` reads only core-agreed state. -/
theorem coreAgrees_schedule_all (s1 s2 : Simulator) (h : coreAgrees s1 s2) :
    s1.schedule_all = s2.schedule_all := by
  simp only [Simulator.schedule_all, h.2.2.2.2.1]
  have hw : ((List.range s2.P_.length).flatMap
        fun (i : Nat) => s1.schedule_wall_events (i : Int))
      = (List.range s2.P_.length).flatMap
        fun (i : Nat) => s2.schedule_wall_events (i : Int) :=
    List.flatMap_congr fun i _ => coreAgrees_wall_events s1 s2 h (i : Int)
  have hp : ((List.range s2.P_.length).flatMap
        fun (i : Nat) => s1.schedule_pp_events_for (i : Int))
      = (List.range s2.P_.length).flatMap
        fun (i : Nat) => s2.schedule_pp_events_for (i : Int) :=
    List.flatMap_congr fun i _ => coreAgrees_pp_events s1 s2 h (i : Int)
  rw [hw, hp]

/-- The `valid` reads only core-agreed state. -/
theorem coreAgrees_valid (s1 s2 : Simulator) (h : coreAgrees s1 s2) (e : Event) :
    s1.valid e = s2.valid e := by
  simp only [Simulator.valid, Simulator.pAt, h.2.2.2.2.1]

/-- The `snapshot` preserves core agreement (it touches only the history). -/
theorem coreAgrees_snapshot (s1 s2 : Simulator) (h : coreAgrees s1 s2) :
    coreAgrees s1.snapshot s2.snapshot := by
  obtain ⟨hW, hH, hT, hM, hP, ht, hq⟩ := h
  have f1 := Simulator.snapshot_fields s1
  have f2 := Simulator.snapshot_fields s2
  exact ⟨by rw [f1.1, f2.1]; exact hW, by rw [f1.1, f2.1]; exact hH,
    by rw [f1.1, f2.1]; exact hT, by rw [f1.1, f2.1]; exact hM,
    by rw [f1.2.2.1, f2.2.2.1]; exact hP, by rw [f1.2.1, f2.2.1]; exact ht,
    by rw [f1.2.2.2, f2.2.2.2]; exact hq⟩

/-- The `drift_to` preserves core agreement. -/
theorem coreAgrees_drift (s1 s2 : Simulator) (h : coreAgrees s1 s2) (T : ℝ) :
    coreAgrees (s1.drift_to T) (s2.drift_to T) := by
  obtain ⟨hW, hH, hT, hM, hP, ht, hq⟩ := h
  simp only [Simulator.drift_to, hP, ht]
  by_cases hd : T - s2.t_ ≤ 0
  · rw [if_pos hd, if_pos hd]
    exact ⟨hW, hH, hT, hM, hP, ht, hq⟩
  · rw [if_neg hd, if_neg hd]
    exact ⟨hW, hH, hT, hM, rfl, rfl, hq⟩

/-- The wall and pair resolvers preserve core agreement. -/
theorem coreAgrees_bounce (s1 s2 : Simulator) (h : coreAgrees s1 s2) (i j : Int) :
    coreAgrees (s1.bounce_wall_x i) (s2.bounce_wall_x i) ∧
    coreAgrees (s1.bounce_wall_y i) (s2.bounce_wall_y i) ∧
    coreAgrees (s1.bounce_pp i j) (s2.bounce_pp i j) := by
  obtain ⟨hW, hH, hT, hM, hP, ht, hq⟩ := h
  refine ⟨?_, ?_, ?_⟩ <;>
    simp only [Simulator.bounce_wall_x, Simulator.bounce_wall_y,
      Simulator.bounce_pp, Simulator.pAt, hP] <;>
    exact ⟨hW, hH, hT, hM, rfl, ht, hq⟩

/-- Committing the same event from core-agreed states yields core-agreed
states: the commit path never reads the rollback configuration or the
history. -/
theorem coreAgrees_commit (s1 s2 : Simulator) (h : coreAgrees s1 s2) (e : Event) :
    coreAgrees (s1.commitEvent e) (s2.commitEvent e) := by
  have h2 := coreAgrees_drift _ _ (coreAgrees_snapshot _ _ h) e.t
  cases he : e.type <;> simp only [Simulator.commitEvent, he]
  · have h3 := (coreAgrees_bounce _ _ h2 e.a e.b).1
    exact ⟨h3.1, h3.2.1, h3.2.2.1, h3.2.2.2.1, h3.2.2.2.2.1, h3.2.2.2.2.2.1, by
      rw [h3.2.2.2.2.2.2, coreAgrees_wall_events _ _ h3 e.a,
        coreAgrees_pp_events _ _ h3 e.a]⟩
  · have h3 := (coreAgrees_bounce _ _ h2 e.a e.b).2.1
    exact ⟨h3.1, h3.2.1, h3.2.2.1, h3.2.2.2.1, h3.2.2.2.2.1, h3.2.2.2.2.2.1, by
      rw [h3.2.2.2.2.2.2, coreAgrees_wall_events _ _ h3 e.a,
        coreAgrees_pp_events _ _ h3 e.a]⟩
  · have h3 := (coreAgrees_bounce _ _ h2 e.a e.b).2.2
    exact ⟨h3.1, h3.2.1, h3.2.2.1, h3.2.2.2.1, h3.2.2.2.2.1, h3.2.2.2.2.2.1, by
      rw [h3.2.2.2.2.2.2, coreAgrees_wall_events _ _ h3 e.a,
        coreAgrees_wall_events _ _ h3 e.b,
        coreAgrees_pair_resched _ _ h3 e.a e.b]⟩

/-- Core agreement lifted to loop-iteration outcomes: same exit/continue
shape, same committed flag, core-agreed successor states. -/
def stepAgrees : Simulator.LoopStep → Simulator.LoopStep → Prop
  | Simulator.LoopStep.exit a, Simulator.LoopStep.exit b => coreAgrees a b
  | Simulator.LoopStep.cont ba a, Simulator.LoopStep.cont bb b =>
      ba = bb ∧ coreAgrees a b
  | _, _ => False

/-- The loop guard reads only core-agreed state. -/
theorem coreAgrees_guard (s1 s2 : Simulator) (h : coreAgrees s1 s2) (p : Int)
    (hg : ¬ (s1.pq_ = [] ∨ ¬ p < s1.cfg_.max_events)) :
    ¬ (s2.pq_ = [] ∨ ¬ p < s2.cfg_.max_events) := by
  rw [← h.2.2.2.2.2.2, ← h.2.2.2.1]
  exact hg

/-- One loop-iteration body on the same popped event from core-agreed
states takes the same branch and yields core-agreed states. -/
theorem coreAgrees_iterOn (s1 s2 : Simulator) (h : coreAgrees s1 s2)
    (e : Event) (rest : List Event) :
    stepAgrees (s1.iterOn e rest) (s2.iterOn e rest) := by
  have hrest : coreAgrees { s1 with pq_ := rest } { s2 with pq_ := rest } :=
    ⟨h.1, h.2.1, h.2.2.1, h.2.2.2.1, h.2.2.2.2.1, h.2.2.2.2.2.1, rfl⟩
  simp only [Simulator.iterOn, h.2.2.1, coreAgrees_valid s1 s2 h]
  by_cases hTe : e.t > s2.cfg_.T_end
  · rw [if_pos hTe, if_pos hTe]
    exact hrest
  · rw [if_neg hTe, if_neg hTe]
    by_cases hv : s2.valid e = false
    · rw [if_pos hv, if_pos hv]
      exact ⟨rfl, hrest⟩
    · rw [if_neg hv, if_neg hv]
      exact ⟨rfl, coreAgrees_commit _ _ hrest e⟩

/-- Core agreement is symmetric. -/
theorem coreAgrees_symm (s1 s2 : Simulator) (h : coreAgrees s1 s2) :
    coreAgrees s2 s1 :=
  ⟨h.1.symm, h.2.1.symm, h.2.2.1.symm, h.2.2.2.1.symm, h.2.2.2.2.1.symm,
   h.2.2.2.2.2.1.symm, h.2.2.2.2.2.2.symm⟩

/-- Every loop execution is simulated, pop for pop, from any core-agreed
state: the rollback settings and the history never steer the loop. -/
theorem coreAgrees_LoopExec : ∀ (p : Int) (s1 sf1 : Simulator),
    Simulator.LoopExec p s1 sf1 → ∀ s2, coreAgrees s1 s2 →
    ∃ sf2, Simulator.LoopExec p s2 sf2 ∧ coreAgrees sf1 sf2 := by
  intro p s1 sf1 h
  induction h with
  | done p s hg =>
    intro s2 hc
    refine ⟨s2, Simulator.LoopExec.done p s2 ?_, hc⟩
    rcases hg with hg | hg
    · exact Or.inl (by rw [← hc.2.2.2.2.2.2]; exact hg)
    · exact Or.inr (by rw [← hc.2.2.2.1]; exact hg)
  | brk p s s' e rest hg hpop hit =>
    intro s2 hc
    have hq : s.pq_ = s2.pq_ := hc.2.2.2.2.2.2
    have hit2 := coreAgrees_iterOn s s2 hc e rest
    rw [hit] at hit2
    rcases h2 : s2.iterOn e rest with t2 | ⟨b2, t2⟩ <;> rw [h2] at hit2 <;>
      simp only [stepAgrees] at hit2
    exact ⟨t2, Simulator.LoopExec.brk p s2 t2 e rest
      (coreAgrees_guard s s2 hc p hg) (hq ▸ hpop) h2, hit2⟩
  | skip p s s' sf e rest hg hpop hit hrest ih =>
    intro s2 hc
    have hq : s.pq_ = s2.pq_ := hc.2.2.2.2.2.2
    have hit2 := coreAgrees_iterOn s s2 hc e rest
    rw [hit] at hit2
    rcases h2 : s2.iterOn e rest with t2 | ⟨b2, t2⟩ <;> rw [h2] at hit2 <;>
      simp only [stepAgrees] at hit2
    obtain ⟨hb, hagree⟩ := hit2
    obtain ⟨sf2, hexec2, hagree2⟩ := ih t2 hagree
    rw [← hb] at h2
    exact ⟨sf2, Simulator.LoopExec.skip p s2 t2 sf2 e rest
      (coreAgrees_guard s s2 hc p hg) (hq ▸ hpop) h2 hexec2, hagree2⟩
  | commit p s s' sf e rest hg hpop hit hrest ih =>
    intro s2 hc
    have hq : s.pq_ = s2.pq_ := hc.2.2.2.2.2.2
    have hit2 := coreAgrees_iterOn s s2 hc e rest
    rw [hit] at hit2
    rcases h2 : s2.iterOn e rest with t2 | ⟨b2, t2⟩ <;> rw [h2] at hit2 <;>
      simp only [stepAgrees] at hit2
    obtain ⟨hb, hagree⟩ := hit2
    obtain ⟨sf2, hexec2, hagree2⟩ := ih t2 hagree
    rw [← hb] at h2
    exact ⟨sf2, Simulator.LoopExec.commit p s2 t2 sf2 e rest
      (coreAgrees_guard s s2 hc p hg) (hq ▸ hpop) h2 hexec2, hagree2⟩

/-- Every run execution is simulated from any core-agreed state with a
core-agreed result. -/
theorem coreAgrees_RunExec (s1 s2 : Simulator) (h : coreAgrees s1 s2)
    (sf1 : Simulator) (hrun : Simulator.RunExec s1 sf1) :
    ∃ sf2, Simulator.RunExec s2 sf2 ∧ coreAgrees sf1 sf2 := by
  obtain ⟨m1, hloop, hdrift⟩ := hrun
  have hseed : coreAgrees { s1 with pq_ := s1.pq_ ++ s1.schedule_all }
      { s2 with pq_ := s2.pq_ ++ s2.schedule_all } :=
    ⟨h.1, h.2.1, h.2.2.1, h.2.2.2.1, h.2.2.2.2.1, h.2.2.2.2.2.1, by
      show s1.pq_ ++ s1.schedule_all = s2.pq_ ++ s2.schedule_all
      rw [h.2.2.2.2.2.2, coreAgrees_schedule_all s1 s2 h]⟩
  obtain ⟨m2, hloop2, hm⟩ := coreAgrees_LoopExec 0 _ m1 hloop _ hseed
  refine ⟨m2.drift_to m2.cfg_.T_end, ⟨m2, hloop2, rfl⟩, ?_⟩
  rw [hdrift]
  have hTeq : m1.cfg_.T_end = m2.cfg_.T_end := hm.2.2.1
  rw [hTeq]
  exact coreAgrees_drift m1 m2 hm m2.cfg_.T_end

/-- C10: the rollback configuration never influences the simulated
trajectory.  For every pair of configurations agreeing on box, horizon and
event cap but differing arbitrarily in `enable_rollback` and
`rollback_depth`, and every initial body list, every execution of one
`run()` is matched by an execution of the other making exactly the same
pops, with identical final time and identical final bodies (positions,
velocities, radii, masses and collision counters): `snapshot()` reads but
never writes the time and body array, and mutates only the history
stack. -/
theorem rollback_config_invisible (cfg1 cfg2 : SimConfig) (P0 : List Particle)
    (hW : cfg1.W = cfg2.W) (hH : cfg1.H = cfg2.H) (hT : cfg1.T_end = cfg2.T_end)
    (hM : cfg1.max_events = cfg2.max_events) :
    (∀ sf1, Simulator.RunExec (mkSimulator cfg1 P0) sf1 →
      ∃ sf2, Simulator.RunExec (mkSimulator cfg2 P0) sf2 ∧
        sf1.t_ = sf2.t_ ∧ sf1.P_ = sf2.P_) ∧
    (∀ sf2, Simulator.RunExec (mkSimulator cfg2 P0) sf2 →
      ∃ sf1, Simulator.RunExec (mkSimulator cfg1 P0) sf1 ∧
        sf1.t_ = sf2.t_ ∧ sf1.P_ = sf2.P_) := by
  have hmk : coreAgrees (mkSimulator cfg1 P0) (mkSimulator cfg2 P0) :=
    ⟨hW, hH, hT, hM, rfl, rfl, rfl⟩
  constructor
  · intro sf1 h1
    obtain ⟨sf2, h2, ha⟩ := coreAgrees_RunExec _ _ hmk sf1 h1
    exact ⟨sf2, h2, ha.2.2.2.2.2.1, ha.2.2.2.2.1⟩
  · intro sf2 h2
    obtain ⟨sf1, h1, ha⟩ :=
      coreAgrees_RunExec _ _ (coreAgrees_symm _ _ hmk) sf2 h2
    exact ⟨sf1, h1, ha.2.2.2.2.2.1.symm, ha.2.2.2.2.1.symm⟩

/-- The `getD` of a mapped list at an in-range index. -/
theorem getD_map (l : List Particle) (f : Particle → Particle) (n : Nat)
    (h : n < l.length) :
    (l.map f).getD n default = f (l.getD n default) := by
  rw [List.getD_eq_getElem l default h,
    List.getD_eq_getElem (l.map f) default (by simpa using h)]
  exact List.getElem_map f

/-- The `getD` of a `set` list at the written index. -/
theorem getD_set_eq (l : List Particle) (x : Particle) (i : Nat)
    (h : i < l.length) : (l.set i x).getD i default = x := by
  rw [List.getD_eq_getElem (l.set i x) default (by simpa using h)]
  exact List.getElem_set_eq (by simpa using h)

/-- The `getD` of a `set` list at another index. -/
theorem getD_set_ne (l : List Particle) (x : Particle) (i n : Nat)
    (hne : n ≠ i) : (l.set i x).getD n default = l.getD n default := by
  by_cases h : n < l.length
  · rw [List.getD_eq_getElem (l.set i x) default (by simpa using h),
      List.getD_eq_getElem l default h]
    exact List.getElem_set_ne (fun hh => hne hh.symm) _
  · rw [List.getD_eq_default _ _ (by simpa using not_lt.mp h),
      List.getD_eq_default _ _ (by simpa using not_lt.mp h)]

/-- An in-range `getD` is a member. -/
theorem getD_mem (l : List Particle) (n : Nat) (h : n < l.length) :
    l.getD n default ∈ l := by
  rw [List.getD_eq_getElem l default h]
  exact List.getElem_mem h

/-- A body's center lies within `[rad, W-rad] × [rad, H-rad]` (the
containment region of spec section 8). -/
def inBox (cfg : SimConfig) (p : Particle) : Prop :=
  p.rad ≤ p.r.x ∧ p.r.x ≤ cfg.W - p.rad ∧ p.rad ≤ p.r.y ∧ p.r.y ≤ cfg.H - p.rad

/-- The `time_to_wall_x` yields `some` exactly off the zero-velocity branch,
with the two closed forms of the source. -/
theorem time_to_wall_x_cases (s : Simulator) (p : Particle) (tx : ℝ)
    (h : s.time_to_wall_x p = some tx) :
    (0 < p.v.x ∧ tx = (s.cfg_.W - p.rad - p.r.x) / p.v.x) ∨
    (p.v.x < 0 ∧ tx = (p.rad - p.r.x) / p.v.x) := by
  simp only [Simulator.time_to_wall_x] at h
  by_cases h1 : p.v.x > 0
  · rw [if_pos h1] at h
    cases h
    exact Or.inl ⟨h1, rfl⟩
  · rw [if_neg h1] at h
    by_cases h2 : p.v.x < 0
    · rw [if_pos h2] at h
      cases h
      exact Or.inr ⟨h2, rfl⟩
    · rw [if_neg h2] at h
      cases h

/-- Counterpart of `time_to_wall_x_cases` for the y axis. -/
theorem time_to_wall_y_cases (s : Simulator) (p : Particle) (ty : ℝ)
    (h : s.time_to_wall_y p = some ty) :
    (0 < p.v.y ∧ ty = (s.cfg_.H - p.rad - p.r.y) / p.v.y) ∨
    (p.v.y < 0 ∧ ty = (p.rad - p.r.y) / p.v.y) := by
  simp only [Simulator.time_to_wall_y] at h
  by_cases h1 : p.v.y > 0
  · rw [if_pos h1] at h
    cases h
    exact Or.inl ⟨h1, rfl⟩
  · rw [if_neg h1] at h
    by_cases h2 : p.v.y < 0
    · rw [if_pos h2] at h
      cases h
      exact Or.inr ⟨h2, rfl⟩
    · rw [if_neg h2] at h
      cases h

/-- A body moving on the x axis always has a finite x-wall time. -/
theorem time_to_wall_x_isSome (s : Simulator) (p : Particle)
    (h : p.v.x ≠ 0) : ∃ tx, s.time_to_wall_x p = some tx := by
  simp only [Simulator.time_to_wall_x]
  by_cases h1 : p.v.x > 0
  · rw [if_pos h1]
    exact ⟨_, rfl⟩
  · rw [if_neg h1, if_pos (lt_of_le_of_ne (not_lt.mp h1) h)]
    exact ⟨_, rfl⟩

/-- A body moving on the y axis always has a finite y-wall time. -/
theorem time_to_wall_y_isSome (s : Simulator) (p : Particle)
    (h : p.v.y ≠ 0) : ∃ ty, s.time_to_wall_y p = some ty := by
  simp only [Simulator.time_to_wall_y]
  by_cases h1 : p.v.y > 0
  · rw [if_pos h1]
    exact ⟨_, rfl⟩
  · rw [if_neg h1, if_pos (lt_of_le_of_ne (not_lt.mp h1) h)]
    exact ⟨_, rfl⟩

/-- A still body has no wall events at all. -/
theorem time_to_wall_none_of_still (s : Simulator) (p : Particle)
    (hx : p.v.x = 0) (hy : p.v.y = 0) :
    s.time_to_wall_x p = none ∧ s.time_to_wall_y p = none := by
  constructor <;> simp [Simulator.time_to_wall_x, Simulator.time_to_wall_y, hx, hy]

/-- For a body inside the box, the wall times are non-negative. -/
theorem time_to_wall_x_nonneg (s : Simulator) (p : Particle)
    (hlo : p.rad ≤ p.r.x) (hhi : p.r.x ≤ s.cfg_.W - p.rad) (tx : ℝ)
    (h : s.time_to_wall_x p = some tx) : 0 ≤ tx := by
  rcases time_to_wall_x_cases s p tx h with ⟨hv, htx⟩ | ⟨hv, htx⟩
  · rw [htx]
    exact div_nonneg (by linarith) (le_of_lt hv)
  · rw [htx]
    exact div_nonneg_iff.mpr (Or.inr ⟨by linarith, le_of_lt hv⟩)

/-- For a body inside the box, the y-wall time is non-negative. -/
theorem time_to_wall_y_nonneg (s : Simulator) (p : Particle)
    (hlo : p.rad ≤ p.r.y) (hhi : p.r.y ≤ s.cfg_.H - p.rad) (ty : ℝ)
    (h : s.time_to_wall_y p = some ty) : 0 ≤ ty := by
  rcases time_to_wall_y_cases s p ty h with ⟨hv, hty⟩ | ⟨hv, hty⟩
  · rw [hty]
    exact div_nonneg (by linarith) (le_of_lt hv)
  · rw [hty]
    exact div_nonneg_iff.mpr (Or.inr ⟨by linarith, le_of_lt hv⟩)

/-- A predicted pair-collision time is strictly positive (the `1e-12`
tolerance rejects non-positive roots). -/
theorem time_to_pp_pos (A B : Particle) (dt : ℝ)
    (h : Simulator.time_to_pp A B = some dt) : 0 < dt := by
  simp only [Simulator.time_to_pp] at h
  by_cases h1 : (B.v.sub A.v).dot (B.r.sub A.r) ≥ 0
  · rw [if_pos h1] at h
    cases h
  · rw [if_neg h1] at h
    by_cases h2 : (B.v.sub A.v).dot (B.r.sub A.r) * ((B.v.sub A.v).dot (B.r.sub A.r))
        - (B.v.sub A.v).norm2 * ((B.r.sub A.r).norm2
          - (A.rad + B.rad) * (A.rad + B.rad)) < 0
    · rw [if_pos h2] at h
      cases h
    · rw [if_neg h2] at h
      by_cases h3 : -((B.v.sub A.v).dot (B.r.sub A.r)
            + Real.sqrt ((B.v.sub A.v).dot (B.r.sub A.r) * ((B.v.sub A.v).dot (B.r.sub A.r))
              - (B.v.sub A.v).norm2 * ((B.r.sub A.r).norm2
                - (A.rad + B.rad) * (A.rad + B.rad)))) / (B.v.sub A.v).norm2 ≤ 1e-12
      · rw [if_pos h3] at h
        cases h
      · rw [if_neg h3] at h
        cases h
        have h12 : (0 : ℝ) < 1e-12 := by norm_num
        linarith [not_le.mp h3]

/-- Ballistic motion confined by its wall-crossing time stays within the
slab `[rad, W-rad]`. -/
theorem axis_box (x vx rad W dt tx : ℝ) (hlo : rad ≤ x) (hhi : x ≤ W - rad)
    (hdt : 0 ≤ dt) (htx : dt ≤ tx)
    (hcase : (0 < vx ∧ tx = (W - rad - x) / vx) ∨
             (vx < 0 ∧ tx = (rad - x) / vx) ∨ vx = 0) :
    rad ≤ x + vx * dt ∧ x + vx * dt ≤ W - rad := by
  rcases hcase with ⟨hv, htxe⟩ | ⟨hv, htxe⟩ | hv
  · have hvne : vx ≠ 0 := ne_of_gt hv
    have hvt : vx * tx = W - rad - x := by
      rw [htxe]
      field_simp
    constructor
    · nlinarith
    · nlinarith
  · have hvne : vx ≠ 0 := ne_of_lt hv
    have hvt : vx * tx = rad - x := by
      rw [htxe]
      field_simp
    constructor
    · nlinarith
    · nlinarith
  · rw [hv]
    constructor <;> linarith

/-- Every event pushed by `schedule_wall_events i` is a wall event for `i`,
scheduled between now and the horizon — provided body `i` is in the box (or
still, in which case nothing is pushed). -/
theorem wall_events_bounds (s : Simulator) (i : Int)
    (hbox : inBox s.cfg_ (s.pAt i) ∨ ((s.pAt i).v.x = 0 ∧ (s.pAt i).v.y = 0)) :
    ∀ ev ∈ s.schedule_wall_events i,
      s.t_ ≤ ev.t ∧ ev.t ≤ s.cfg_.T_end ∧ ev.a = i ∧ ev.b = -1 ∧
      ev.type ≠ EventType.P_P := by
  intro ev hev
  simp only [Simulator.schedule_wall_events] at hev
  rcases List.mem_append.mp hev with hx | hy
  · rcases htx : s.time_to_wall_x (s.pAt i) with _ | tx <;> rw [htx] at hx <;>
      dsimp only at hx
    · cases hx
    · by_cases hg : s.t_ + tx ≤ s.cfg_.T_end
      · rw [if_pos hg] at hx
        have hev' := List.mem_singleton.mp hx
        subst hev'
        have h0 : (0 : ℝ) ≤ tx := by
          rcases hbox with hb | ⟨hvx, hvy⟩
          · exact time_to_wall_x_nonneg s _ hb.1 hb.2.1 tx htx
          · rw [(time_to_wall_none_of_still s _ hvx hvy).1] at htx
            cases htx
        exact ⟨show s.t_ ≤ s.t_ + tx by linarith, hg, rfl, rfl,
          fun h => EventType.noConfusion h⟩
      · rw [if_neg hg] at hx
        cases hx
  · rcases hty : s.time_to_wall_y (s.pAt i) with _ | ty <;> rw [hty] at hy <;>
      dsimp only at hy
    · cases hy
    · by_cases hg : s.t_ + ty ≤ s.cfg_.T_end
      · rw [if_pos hg] at hy
        have hev' := List.mem_singleton.mp hy
        subst hev'
        have h0 : (0 : ℝ) ≤ ty := by
          rcases hbox with hb | ⟨hvx, hvy⟩
          · exact time_to_wall_y_nonneg s _ hb.2.2.1 hb.2.2.2 ty hty
          · rw [(time_to_wall_none_of_still s _ hvx hvy).2] at hty
            cases hty
        exact ⟨show s.t_ ≤ s.t_ + ty by linarith, hg, rfl, rfl,
          fun h => EventType.noConfusion h⟩
      · rw [if_neg hg] at hy
        cases hy

/-- Every event pushed by `schedule_pp_events_for i` is a pair event
`(i, j)` with `i < j < n`, scheduled strictly after now and no later than
the horizon. -/
theorem pp_events_bounds (s : Simulator) (i : Int) :
    ∀ ev ∈ s.schedule_pp_events_for i,
      s.t_ ≤ ev.t ∧ ev.t ≤ s.cfg_.T_end ∧ ev.type = EventType.P_P ∧
      ev.a = i ∧ i + 1 ≤ ev.b ∧ ev.b < (s.P_.length : Int) := by
  intro ev hev
  simp only [Simulator.schedule_pp_events_for, List.mem_filterMap] at hev
  obtain ⟨j, hj, hf⟩ := hev
  rw [List.mem_range] at hj
  by_cases hij : i + 1 ≤ (j : Int)
  · rw [if_pos hij] at hf
    rcases hpp : Simulator.time_to_pp (s.pAt i) (s.pAt (j : Int))
        with _ | dt <;> rw [hpp] at hf <;> dsimp only at hf
    · cases hf
    · by_cases hg : s.t_ + dt ≤ s.cfg_.T_end
      · rw [if_pos hg] at hf
        have hev' := (Option.some.inj hf).symm
        subst hev'
        have hdt := time_to_pp_pos _ _ dt hpp
        exact ⟨show s.t_ ≤ s.t_ + dt by linarith, hg, rfl, rfl, hij,
          show (j : Int) < (s.P_.length : Int) by exact_mod_cast hj⟩
      · rw [if_neg hg] at hf
        cases hf
  · rw [if_neg hij] at hf
    cases hf

/-- Every event pushed by the pair-branch reschedule loop is a pair event
with canonically ordered in-range indices, scheduled strictly after now and
no later than the horizon. -/
theorem pair_resched_bounds (s : Simulator) (a b : Int)
    (ha0 : 0 ≤ a) (han : a < (s.P_.length : Int))
    (hb0 : 0 ≤ b) (hbn : b < (s.P_.length : Int)) :
    ∀ ev ∈ s.pair_reschedule_events a b,
      s.t_ ≤ ev.t ∧ ev.t ≤ s.cfg_.T_end ∧ ev.type = EventType.P_P ∧
      0 ≤ ev.a ∧ ev.a < ev.b ∧ ev.b < (s.P_.length : Int) := by
  intro ev hev
  simp only [Simulator.pair_reschedule_events, List.mem_flatMap] at hev
  obtain ⟨k, hk, hmem⟩ := hev
  rw [List.mem_range] at hk
  by_cases hab : (k : Int) = a ∨ (k : Int) = b
  · rw [if_pos hab] at hmem
    cases hmem
  · rw [if_neg hab] at hmem
    push_neg at hab
    have hkn : (k : Int) < (s.P_.length : Int) := by exact_mod_cast hk
    have hk0 : (0 : Int) ≤ (k : Int) := Int.natCast_nonneg k
    rcases List.mem_append.mp hmem with hm | hm
    · rcases hpp : Simulator.time_to_pp (s.pAt (min (k : Int) a))
          (s.pAt (max (k : Int) a)) with _ | dt <;> rw [hpp] at hm <;>
        dsimp only at hm
      · cases hm
      · by_cases hg : s.t_ + dt ≤ s.cfg_.T_end
        · rw [if_pos hg] at hm
          have hev' := List.mem_singleton.mp hm
          subst hev'
          have hdt := time_to_pp_pos _ _ dt hpp
          exact ⟨show s.t_ ≤ s.t_ + dt by linarith, hg, rfl, le_min hk0 ha0,
            min_lt_max.mpr hab.1, max_lt hkn han⟩
        · rw [if_neg hg] at hm
          cases hm
    · rcases hpp : Simulator.time_to_pp (s.pAt (min (k : Int) b))
          (s.pAt (max (k : Int) b)) with _ | dt <;> rw [hpp] at hm <;>
        dsimp only at hm
      · cases hm
      · by_cases hg : s.t_ + dt ≤ s.cfg_.T_end
        · rw [if_pos hg] at hm
          have hev' := List.mem_singleton.mp hm
          subst hev'
          have hdt := time_to_pp_pos _ _ dt hpp
          exact ⟨show s.t_ ≤ s.t_ + dt by linarith, hg, rfl, le_min hk0 hb0,
            min_lt_max.mpr hab.2, max_lt hkn hbn⟩
        · rw [if_neg hg] at hm
          cases hm

/-- The `schedule_wall_events i` covers body `i`'s x-wall crossing: either it is
beyond the horizon, or a matching event tagged with the current counter is
among the pushed events. -/
theorem wall_events_cover_x (s : Simulator) (i : Int) (tx : ℝ)
    (h : s.time_to_wall_x (s.pAt i) = some tx) :
    s.cfg_.T_end < s.t_ + tx ∨
    ∃ ev ∈ s.schedule_wall_events i, ev.type = EventType.P_WALL_X ∧
      ev.a = i ∧ ev.collA = (s.pAt i).coll_count ∧ ev.t = s.t_ + tx := by
  by_cases hg : s.t_ + tx ≤ s.cfg_.T_end
  · right
    refine ⟨⟨s.t_ + tx, i, -1, EventType.P_WALL_X, (s.pAt i).coll_count, -1⟩,
      ?_, rfl, rfl, rfl, rfl⟩
    simp only [Simulator.schedule_wall_events, h]
    rw [if_pos hg]
    exact List.mem_append_left _ (List.mem_singleton.mpr rfl)
  · exact Or.inl (not_le.mp hg)

/-- The `schedule_wall_events i` covers body `i`'s y-wall crossing likewise. -/
theorem wall_events_cover_y (s : Simulator) (i : Int) (ty : ℝ)
    (h : s.time_to_wall_y (s.pAt i) = some ty) :
    s.cfg_.T_end < s.t_ + ty ∨
    ∃ ev ∈ s.schedule_wall_events i, ev.type = EventType.P_WALL_Y ∧
      ev.a = i ∧ ev.collA = (s.pAt i).coll_count ∧ ev.t = s.t_ + ty := by
  by_cases hg : s.t_ + ty ≤ s.cfg_.T_end
  · right
    refine ⟨⟨s.t_ + ty, i, -1, EventType.P_WALL_Y, (s.pAt i).coll_count, -1⟩,
      ?_, rfl, rfl, rfl, rfl⟩
    simp only [Simulator.schedule_wall_events, h]
    rw [if_pos hg]
    exact List.mem_append_right _ (List.mem_singleton.mpr rfl)
  · exact Or.inl (not_le.mp hg)

/-- Drifting a body by `dt` shifts its absolute x-wall crossing time by
exactly `dt`. -/
theorem time_to_wall_x_shift (s s' : Simulator) (hW : s'.cfg_.W = s.cfg_.W)
    (p q : Particle) (dt : ℝ) (hv : q.v = p.v) (hrad : q.rad = p.rad)
    (hx : q.r.x = p.r.x + p.v.x * dt) (tx : ℝ)
    (h : s.time_to_wall_x p = some tx) :
    s'.time_to_wall_x q = some (tx - dt) := by
  rcases time_to_wall_x_cases s p tx h with ⟨hvx, htx⟩ | ⟨hvx, htx⟩
  · have hne : p.v.x ≠ 0 := ne_of_gt hvx
    simp only [Simulator.time_to_wall_x, hv, hx, hrad, hW]
    rw [if_pos hvx]
    congr 1
    rw [htx]
    field_simp
    ring
  · have hne : p.v.x ≠ 0 := ne_of_lt hvx
    simp only [Simulator.time_to_wall_x, hv, hx, hrad, hW]
    rw [if_neg (asymm hvx), if_pos hvx]
    congr 1
    rw [htx]
    field_simp
    ring

/-- Drifting a body by `dt` shifts its absolute y-wall crossing time by
exactly `dt`. -/
theorem time_to_wall_y_shift (s s' : Simulator) (hH : s'.cfg_.H = s.cfg_.H)
    (p q : Particle) (dt : ℝ) (hv : q.v = p.v) (hrad : q.rad = p.rad)
    (hy : q.r.y = p.r.y + p.v.y * dt) (ty : ℝ)
    (h : s.time_to_wall_y p = some ty) :
    s'.time_to_wall_y q = some (ty - dt) := by
  rcases time_to_wall_y_cases s p ty h with ⟨hvy, hty⟩ | ⟨hvy, hty⟩
  · have hne : p.v.y ≠ 0 := ne_of_gt hvy
    simp only [Simulator.time_to_wall_y, hv, hy, hrad, hH]
    rw [if_pos hvy]
    congr 1
    rw [hty]
    field_simp
    ring
  · have hne : p.v.y ≠ 0 := ne_of_lt hvy
    simp only [Simulator.time_to_wall_y, hv, hy, hrad, hH]
    rw [if_neg (asymm hvy), if_pos hvy]
    congr 1
    rw [hty]
    field_simp
    ring

/-- Drifting forward lands exactly at the target time. -/
theorem drift_to_t_of_le (s : Simulator) (T : ℝ) (h : s.t_ ≤ T) :
    (s.drift_to T).t_ = T := by
  rw [Simulator.drift_to_t]
  exact max_eq_right h

/-- Per-body effect of `drift_to`: velocity, radius, mass and counter are
unchanged; when drifting forward the position advances linearly. -/
theorem drift_to_getD (s : Simulator) (T : ℝ) (k : Nat) (hk : k < s.P_.length) :
    ((s.drift_to T).P_.getD k default).v = (s.P_.getD k default).v ∧
    ((s.drift_to T).P_.getD k default).rad = (s.P_.getD k default).rad ∧
    ((s.drift_to T).P_.getD k default).m = (s.P_.getD k default).m ∧
    ((s.drift_to T).P_.getD k default).coll_count
      = (s.P_.getD k default).coll_count ∧
    (s.t_ ≤ T →
      ((s.drift_to T).P_.getD k default).r.x
          = (s.P_.getD k default).r.x + (s.P_.getD k default).v.x * (T - s.t_) ∧
      ((s.drift_to T).P_.getD k default).r.y
          = (s.P_.getD k default).r.y + (s.P_.getD k default).v.y * (T - s.t_)) := by
  simp only [Simulator.drift_to]
  by_cases hd : T - s.t_ ≤ 0
  · rw [if_pos hd]
    refine ⟨rfl, rfl, rfl, rfl, fun hle => ?_⟩
    have h0 : T - s.t_ = 0 := le_antisymm hd (by linarith)
    rw [h0]
    constructor <;> ring
  · rw [if_neg hd]
    simp only [getD_map s.P_
      (fun p => { p with r := p.r.add (p.v.smul (T - s.t_)) }) k hk]
    simp only [true_and, and_true]
    exact fun _ => ⟨rfl, rfl⟩

/-- The `bounce_pp_pair` never moves the bodies nor changes radius or mass. -/
theorem bounce_pp_pair_fields (A B : Particle) :
    (bounce_pp_pair A B).1.r = A.r ∧ (bounce_pp_pair A B).1.rad = A.rad ∧
    (bounce_pp_pair A B).1.m = A.m ∧
    (bounce_pp_pair A B).2.r = B.r ∧ (bounce_pp_pair A B).2.rad = B.rad ∧
    (bounce_pp_pair A B).2.m = B.m := by
  simp only [bounce_pp_pair]
  by_cases hd : (B.r.sub A.r).norm2 ≤ 0
  · rw [if_pos hd]
    exact ⟨rfl, rfl, rfl, rfl, rfl, rfl⟩
  · rw [if_neg hd]
    exact ⟨rfl, rfl, rfl, rfl, rfl, rfl⟩

/-- A pending wall event whose captured counter matches its body's current
counter passes validation. -/
theorem valid_wall_match (s : Simulator) (k : Nat) (e : Event)
    (ha : e.a = (k : Int)) (hc : e.collA = (s.P_.getD k default).coll_count)
    (hty : e.type ≠ EventType.P_P) : s.valid e = true := by
  have hA : ¬ (e.a ≥ 0 ∧ (s.pAt e.a).coll_count ≠ e.collA) := by
    intro hcon
    apply hcon.2
    show (s.P_.getD e.a.toNat default).coll_count = e.collA
    rw [ha, hc]
    congr 1
  have hB : ¬ (e.type = EventType.P_P ∧ e.b ≥ 0 ∧
      (s.pAt e.b).coll_count ≠ e.collB) := by
    intro hcon
    exact hty hcon.1
  simp only [Simulator.valid]
  rw [if_neg hA, if_neg hB]

/-- Body `k`'s next x-wall crossing is covered: it lies beyond the horizon,
or a pending x-wall event for `k`, stamped with `k`'s current counter, is
scheduled exactly at the crossing time. -/
def wallCoverX (s : Simulator) (k : Nat) : Prop :=
  ∀ tx, s.time_to_wall_x (s.P_.getD k default) = some tx →
    (s.cfg_.T_end < s.t_ + tx ∨
     ∃ ev ∈ s.pq_, ev.type = EventType.P_WALL_X ∧ ev.a = (k : Int) ∧
       ev.collA = (s.P_.getD k default).coll_count ∧ ev.t = s.t_ + tx)

/-- Likewise for the y axis. -/
def wallCoverY (s : Simulator) (k : Nat) : Prop :=
  ∀ ty, s.time_to_wall_y (s.P_.getD k default) = some ty →
    (s.cfg_.T_end < s.t_ + ty ∨
     ∃ ev ∈ s.pq_, ev.type = EventType.P_WALL_Y ∧ ev.a = (k : Int) ∧
       ev.collA = (s.P_.getD k default).coll_count ∧ ev.t = s.t_ + ty)

/-- The inductive invariant of the driver loop: (1) no pending event lies in
the past; (2) no pending event lies beyond the horizon; (3) every body is
inside the box; (4) every body's wall crossings are covered by valid
pending events (or lie beyond the horizon); (5) every pending event carries
in-range body indices, canonically ordered for pairs. -/
def SimInv (s : Simulator) : Prop :=
  (∀ e ∈ s.pq_, s.t_ ≤ e.t) ∧
  (∀ e ∈ s.pq_, e.t ≤ s.cfg_.T_end) ∧
  (∀ k, k < s.P_.length → inBox s.cfg_ (s.P_.getD k default)) ∧
  (∀ k, k < s.P_.length → wallCoverX s k ∧ wallCoverY s k) ∧
  (∀ e ∈ s.pq_, 0 ≤ e.a ∧ e.a < (s.P_.length : Int) ∧
    (e.type = EventType.P_P → e.a < e.b ∧ e.b < (s.P_.length : Int)))

/-- One iteration of the driver loop as a transition relation on simulator
states: an admissible pop followed by the iteration body (the
processed-events guard only stops the loop early; it produces no states an
iteration could not). -/
def stepRel (s s' : Simulator) : Prop :=
  ∃ e rest, Simulator.popRel s.pq_ e rest ∧
    (s.iterOn e rest = Simulator.LoopStep.exit s' ∨
     ∃ b, s.iterOn e rest = Simulator.LoopStep.cont b s')

/-- Every complete execution of the driver loop factors through the
iteration relation: each of its states is reachable step by step. -/
theorem LoopExec_reachable : ∀ (p : Int) (s sf : Simulator),
    Simulator.LoopExec p s sf → Relation.ReflTransGen stepRel s sf := by
  intro p s sf h
  induction h with
  | done p s hg => exact Relation.ReflTransGen.refl
  | brk p s s' e rest hg hpop hit =>
    exact Relation.ReflTransGen.single ⟨e, rest, hpop, Or.inl hit⟩
  | skip p s s' sf e rest hg hpop hit hrest ih =>
    exact Relation.ReflTransGen.head ⟨e, rest, hpop, Or.inr ⟨false, hit⟩⟩ ih
  | commit p s s' sf e rest hg hpop hit hrest ih =>
    exact Relation.ReflTransGen.head ⟨e, rest, hpop, Or.inr ⟨true, hit⟩⟩ ih

/-- The invariant holds at the seeded state, provided every initial body
lies inside the box. -/
theorem SimInv_seed (cfg : SimConfig) (P0 : List Particle)
    (hbox : ∀ p ∈ P0, inBox cfg p) : SimInv (seedSim cfg P0) := by
  have hboxAt : ∀ i : Nat, i < P0.length → inBox cfg (P0.getD i default) :=
    fun i hi => hbox _ (getD_mem P0 i hi)
  have hboxOr : ∀ i : Nat,
      inBox cfg ((mkSimulator cfg P0).pAt (i : Int)) ∨
      (((mkSimulator cfg P0).pAt (i : Int)).v.x = 0 ∧
       ((mkSimulator cfg P0).pAt (i : Int)).v.y = 0) := by
    intro i
    by_cases hi : i < P0.length
    · exact Or.inl (hboxAt i hi)
    · right
      have hd : P0.getD i default = default :=
        List.getD_eq_default _ _ (not_lt.mp hi)
      show (P0.getD i default).v.x = 0 ∧ (P0.getD i default).v.y = 0
      rw [hd]
      exact ⟨rfl, rfl⟩
  have hmem : ∀ e ∈ (seedSim cfg P0).pq_,
      (∃ i : Nat, i < P0.length ∧
        e ∈ (mkSimulator cfg P0).schedule_wall_events (i : Int)) ∨
      (∃ i : Nat, i < P0.length ∧
        e ∈ (mkSimulator cfg P0).schedule_pp_events_for (i : Int)) := by
    intro e he
    rcases List.mem_append.mp he with h0 | hsa
    · exact absurd h0 (List.not_mem_nil e)
    · rcases List.mem_append.mp hsa with hw | hp
      · obtain ⟨i, hi, hev⟩ := List.mem_flatMap.mp hw
        exact Or.inl ⟨i, List.mem_range.mp hi, hev⟩
      · obtain ⟨i, hi, hev⟩ := List.mem_flatMap.mp hp
        exact Or.inr ⟨i, List.mem_range.mp hi, hev⟩
  refine ⟨?_, ?_, ?_, ?_, ?_⟩
  · intro e he
    rcases hmem e he with ⟨i, -, hev⟩ | ⟨i, -, hev⟩
    · exact (wall_events_bounds _ _ (hboxOr i) e hev).1
    · exact (pp_events_bounds _ _ e hev).1
  · intro e he
    rcases hmem e he with ⟨i, -, hev⟩ | ⟨i, -, hev⟩
    · exact (wall_events_bounds _ _ (hboxOr i) e hev).2.1
    · exact (pp_events_bounds _ _ e hev).2.1
  · intro k hk
    exact hboxAt k hk
  · intro k hk
    constructor
    · intro tx hx
      rcases wall_events_cover_x (mkSimulator cfg P0) (k : Int) tx hx with hfar | hcov
      · exact Or.inl hfar
      · obtain ⟨ev, hev, h1, h2, h3, h4⟩ := hcov
        exact Or.inr ⟨ev, List.mem_append.mpr (Or.inr (List.mem_append.mpr
          (Or.inl (List.mem_flatMap.mpr ⟨k, List.mem_range.mpr hk, hev⟩)))),
          h1, h2, h3, h4⟩
    · intro ty hy
      rcases wall_events_cover_y (mkSimulator cfg P0) (k : Int) ty hy with hfar | hcov
      · exact Or.inl hfar
      · obtain ⟨ev, hev, h1, h2, h3, h4⟩ := hcov
        exact Or.inr ⟨ev, List.mem_append.mpr (Or.inr (List.mem_append.mpr
          (Or.inl (List.mem_flatMap.mpr ⟨k, List.mem_range.mpr hk, hev⟩)))),
          h1, h2, h3, h4⟩
  · intro e he
    rcases hmem e he with ⟨i, hi, hev⟩ | ⟨i, hi, hev⟩
    · obtain ⟨-, -, ha, -, hty⟩ := wall_events_bounds _ _ (hboxOr i) e hev
      rw [ha]
      exact ⟨Int.natCast_nonneg i,
        by exact_mod_cast hi, fun hP => absurd hP hty⟩
    · obtain ⟨-, -, -, ha, hb1, hb2⟩ := pp_events_bounds _ _ e hev
      rw [ha]
      exact ⟨Int.natCast_nonneg i, by exact_mod_cast hi,
        fun _ => ⟨by omega, hb2⟩⟩

/-- A body with zero x velocity has no x-wall event. -/
theorem time_to_wall_x_none (s : Simulator) (p : Particle) (h : p.v.x = 0) :
    s.time_to_wall_x p = none := by
  simp [Simulator.time_to_wall_x, h]

/-- A body with zero y velocity has no y-wall event. -/
theorem time_to_wall_y_none (s : Simulator) (p : Particle) (h : p.v.y = 0) :
    s.time_to_wall_y p = none := by
  simp [Simulator.time_to_wall_y, h]

/-- State of the commit pipeline after `snapshot(); drift_to(e.t)`: the
clock is at the event time and every body has advanced ballistically,
keeping velocity, radius, mass and counter. -/
theorem commit_drift_state (s : Simulator) (e : Event) (rest : List Event)
    (hle : s.t_ ≤ e.t) :
    ((({ s with pq_ := rest } : Simulator).snapshot.drift_to e.t).cfg_
        = s.cfg_) ∧
    ((({ s with pq_ := rest } : Simulator).snapshot.drift_to e.t).t_ = e.t) ∧
    ((({ s with pq_ := rest } : Simulator).snapshot.drift_to e.t).pq_
        = rest) ∧
    ((({ s with pq_ := rest } : Simulator).snapshot.drift_to e.t).P_.length
        = s.P_.length) ∧
    (∀ k, k < s.P_.length →
      ((({ s with pq_ := rest } : Simulator).snapshot.drift_to
            e.t).P_.getD k default).v = (s.P_.getD k default).v ∧
      ((({ s with pq_ := rest } : Simulator).snapshot.drift_to
            e.t).P_.getD k default).rad = (s.P_.getD k default).rad ∧
      ((({ s with pq_ := rest } : Simulator).snapshot.drift_to
            e.t).P_.getD k default).m = (s.P_.getD k default).m ∧
      ((({ s with pq_ := rest } : Simulator).snapshot.drift_to
            e.t).P_.getD k default).coll_count
          = (s.P_.getD k default).coll_count ∧
      ((({ s with pq_ := rest } : Simulator).snapshot.drift_to
            e.t).P_.getD k default).r.x
          = (s.P_.getD k default).r.x
            + (s.P_.getD k default).v.x * (e.t - s.t_) ∧
      ((({ s with pq_ := rest } : Simulator).snapshot.drift_to
            e.t).P_.getD k default).r.y
          = (s.P_.getD k default).r.y
            + (s.P_.getD k default).v.y * (e.t - s.t_)) := by
  have f1 := Simulator.snapshot_fields ({ s with pq_ := rest } : Simulator)
  have hp0 : ({ s with pq_ := rest } : Simulator).P_ = s.P_ := rfl
  have ht0 : ({ s with pq_ := rest } : Simulator).t_ = s.t_ := rfl
  have hc0 : ({ s with pq_ := rest } : Simulator).cfg_ = s.cfg_ := rfl
  have hq0 : ({ s with pq_ := rest } : Simulator).pq_ = rest := rfl
  have fdr := drift_to_fields ({ s with pq_ := rest } : Simulator).snapshot e.t
  have hle1 : ({ s with pq_ := rest } : Simulator).snapshot.t_ ≤ e.t := by
    rw [f1.2.1, ht0]
    exact hle
  refine ⟨fdr.1.trans (f1.1.trans hc0),
    drift_to_t_of_le _ _ hle1,
    fdr.2.1.trans (f1.2.2.2.trans hq0),
    fdr.2.2.2.trans (by rw [f1.2.2.1, hp0]), ?_⟩
  intro k hk
  have hk1 : k < ({ s with pq_ := rest } : Simulator).snapshot.P_.length := by
    rw [f1.2.2.1, hp0]
    exact hk
  have hd := drift_to_getD ({ s with pq_ := rest } : Simulator).snapshot e.t k hk1
  rw [f1.2.2.1, hp0, f1.2.1, ht0] at hd
  obtain ⟨hv, hrad, hm, hcc, hr⟩ := hd
  obtain ⟨hrx, hry⟩ := hr hle
  exact ⟨hv, hrad, hm, hcc, hrx, hry⟩

/-- During the drift to a popped event's time no body can leave the box:
the event pops no later than every body's covered wall-crossing time. -/
theorem drift_keeps_box (s : Simulator) (e : Event) (rest : List Event)
    (hpop : Simulator.popRel s.pq_ e rest)
    (hT : e.t ≤ s.cfg_.T_end) (hinv : SimInv s) :
    ∀ k, k < s.P_.length →
      inBox s.cfg_
        ((({ s with pq_ := rest } : Simulator).snapshot.drift_to
          e.t).P_.getD k default) := by
  intro k hk
  have hle : s.t_ ≤ e.t := hinv.1 e (popRel_mem hpop)
  obtain ⟨-, -, -, -, hbody⟩ := commit_drift_state s e rest hle
  obtain ⟨hv, hrad, hm, hcc, hrx, hry⟩ := hbody k hk
  obtain ⟨hx1, hx2, hy1, hy2⟩ := hinv.2.2.1 k hk
  have hdt0 : 0 ≤ e.t - s.t_ := by linarith
  have hboundx : ∀ tx, s.time_to_wall_x (s.P_.getD k default) = some tx →
      e.t - s.t_ ≤ tx := by
    intro tx htx
    rcases (hinv.2.2.2.1 k hk).1 tx htx with hfar | ⟨w, hw, -, -, -, hwt⟩
    · linarith
    · have := popRel_min hpop w hw
      linarith
  have hboundy : ∀ ty, s.time_to_wall_y (s.P_.getD k default) = some ty →
      e.t - s.t_ ≤ ty := by
    intro ty hty
    rcases (hinv.2.2.2.1 k hk).2 ty hty with hfar | ⟨w, hw, -, -, -, hwt⟩
    · linarith
    · have := popRel_min hpop w hw
      linarith
  constructor
  · -- rad ≤ x'
    rw [hrad, hrx]
    by_cases hvx : (s.P_.getD k default).v.x = 0
    · rw [hvx]
      linarith
    · obtain ⟨tx, htx⟩ := time_to_wall_x_isSome s _ hvx
      have hcase := time_to_wall_x_cases s _ tx htx
      exact (axis_box _ _ _ _ _ tx hx1 hx2 hdt0 (hboundx tx htx)
        (hcase.imp id fun hc => Or.inl hc)).1
  constructor
  · rw [hrad, hrx]
    by_cases hvx : (s.P_.getD k default).v.x = 0
    · rw [hvx]
      linarith
    · obtain ⟨tx, htx⟩ := time_to_wall_x_isSome s _ hvx
      have hcase := time_to_wall_x_cases s _ tx htx
      exact (axis_box _ _ _ _ _ tx hx1 hx2 hdt0 (hboundx tx htx)
        (hcase.imp id fun hc => Or.inl hc)).2
  constructor
  · rw [hrad, hry]
    by_cases hvy : (s.P_.getD k default).v.y = 0
    · rw [hvy]
      linarith
    · obtain ⟨ty, hty⟩ := time_to_wall_y_isSome s _ hvy
      have hcase := time_to_wall_y_cases s _ ty hty
      exact (axis_box _ _ _ _ _ ty hy1 hy2 hdt0 (hboundy ty hty)
        (hcase.imp id fun hc => Or.inl hc)).1
  · rw [hrad, hry]
    by_cases hvy : (s.P_.getD k default).v.y = 0
    · rw [hvy]
      linarith
    · obtain ⟨ty, hty⟩ := time_to_wall_y_isSome s _ hvy
      have hcase := time_to_wall_y_cases s _ ty hty
      exact (axis_box _ _ _ _ _ ty hy1 hy2 hdt0 (hboundy ty hty)
        (hcase.imp id fun hc => Or.inl hc)).2

/-- Removing a popped event that serves as nobody's wall-cover witness
preserves the invariant. -/
theorem SimInv_drop (s : Simulator) (e : Event) (rest : List Event)
    (hpop : Simulator.popRel s.pq_ e rest)
    (hinv : SimInv s)
    (hne : ∀ k, k < s.P_.length → ∀ w ∈ s.pq_,
      (w.type = EventType.P_WALL_X ∨ w.type = EventType.P_WALL_Y) →
      w.a = (k : Int) →
      w.collA = (s.P_.getD k default).coll_count → w ≠ e) :
    SimInv ({ s with pq_ := rest }) := by
  obtain ⟨h1, h2, h3, h4, h5⟩ := hinv
  refine ⟨?_, ?_, h3, ?_, ?_⟩
  · intro x hx
    exact h1 x (popRel_rest_mem hpop x hx)
  · intro x hx
    exact h2 x (popRel_rest_mem hpop x hx)
  · intro k hk
    constructor
    · intro tx htx
      rcases (h4 k hk).1 tx htx with hfar | ⟨w, hw, hwt1, hwa, hwc, hwt⟩
      · exact Or.inl hfar
      · exact Or.inr ⟨w, popRel_mem_rest hpop w hw
          (hne k hk w hw (Or.inl hwt1) hwa hwc), hwt1, hwa, hwc, hwt⟩
    · intro ty hty
      rcases (h4 k hk).2 ty hty with hfar | ⟨w, hw, hwt1, hwa, hwc, hwt⟩
      · exact Or.inl hfar
      · exact Or.inr ⟨w, popRel_mem_rest hpop w hw
          (hne k hk w hw (Or.inr hwt1) hwa hwc), hwt1, hwa, hwc, hwt⟩
  · intro x hx
    exact h5 x (popRel_rest_mem hpop x hx)

/-- Popping an event beyond the horizon (the `break` case) preserves the
invariant. -/
theorem SimInv_break (s : Simulator) (e : Event) (rest : List Event)
    (hpop : Simulator.popRel s.pq_ e rest)
    (hgt : e.t > s.cfg_.T_end) (hinv : SimInv s) :
    SimInv ({ s with pq_ := rest }) := by
  refine SimInv_drop s e rest hpop hinv ?_
  intro k hk w hw hwt hwa hwc heq
  have hle := hinv.2.1 w hw
  rw [heq] at hle
  exact absurd hgt (not_lt.mpr hle)

/-- Discarding a stale event preserves the invariant: a cover witness has a
matching counter, so it would have passed validation. -/
theorem SimInv_stale (s : Simulator) (e : Event) (rest : List Event)
    (hpop : Simulator.popRel s.pq_ e rest)
    (hv : s.valid e = false) (hinv : SimInv s) :
    SimInv ({ s with pq_ := rest }) := by
  refine SimInv_drop s e rest hpop hinv ?_
  intro k hk w hw hwt hwa hwc heq
  subst heq
  have hok := valid_wall_match s k w hwa hwc
    (by rcases hwt with h | h <;> rw [h] <;> exact fun hc => EventType.noConfusion hc)
  rw [hok] at hv
  cases hv

/-- Committing a popped x-wall event preserves the invariant: the drift
keeps every body in the box, the bounce flips one velocity component and
bumps one counter, and the reschedule pushes fresh covering events for the
bounced body; every other body's cover witness survives the pop. -/
theorem SimInv_commit_wall_x (s : Simulator) (e : Event) (rest : List Event)
    (hpop : Simulator.popRel s.pq_ e rest)
    (hT : e.t ≤ s.cfg_.T_end) (hinv : SimInv s)
    (hty : e.type = EventType.P_WALL_X) :
    SimInv (Simulator.commitEvent { s with pq_ := rest } e) := by
  have hle : s.t_ ≤ e.t := hinv.1 e (popRel_mem hpop)
  have hwf := hinv.2.2.2.2 e (popRel_mem hpop)
  have hcds := commit_drift_state s e rest hle
  have hbox2 := drift_keeps_box s e rest hpop hT hinv
  simp only [Simulator.commitEvent, hty]
  set s2 : Simulator := ({ s with pq_ := rest } : Simulator).snapshot.drift_to e.t
    with hs2
  set s3 : Simulator := s2.bounce_wall_x e.a with hs3
  obtain ⟨hcfg2, ht2, hpq2, hlen2, hbody2⟩ := hcds
  have ha0 : 0 ≤ e.a := hwf.1
  have haN : e.a < (s.P_.length : Int) := hwf.2.1
  have ha' : ((e.a.toNat : Nat) : Int) = e.a := Int.toNat_of_nonneg ha0
  have ha'lt : e.a.toNat < s.P_.length := by
    have h0 : ((e.a.toNat : Nat) : Int) < (s.P_.length : Int) := by
      rw [ha']
      exact haN
    exact_mod_cast h0
  have hkint : ∀ k : Nat, (k : Int) = e.a ↔ k = e.a.toNat := by
    intro k
    constructor
    · intro h
      have h0 : (k : Int) = ((e.a.toNat : Nat) : Int) := by
        rw [ha']
        exact h
      exact_mod_cast h0
    · intro h
      rw [h, ha']
  have hlen3 : s3.P_.length = s.P_.length := by
    rw [hs3]
    simp only [Simulator.bounce_wall_x, List.length_set]
    exact hlen2
  have ht3 : s3.t_ = e.t := by
    rw [hs3]
    show s2.t_ = e.t
    exact ht2
  have hc3 : s3.cfg_ = s.cfg_ := by
    rw [hs3]
    show s2.cfg_ = s.cfg_
    exact hcfg2
  have hpq3 : s3.pq_ = rest := by
    rw [hs3]
    show s2.pq_ = rest
    exact hpq2
  have hb3a : s3.P_.getD e.a.toNat default
      = { s2.P_.getD e.a.toNat default with
          v := { (s2.P_.getD e.a.toNat default).v with
                 x := -(s2.P_.getD e.a.toNat default).v.x },
          coll_count := (s2.P_.getD e.a.toNat default).coll_count + 1 } := by
    rw [hs3]
    simp only [Simulator.bounce_wall_x]
    exact getD_set_eq _ _ _ (by rw [hlen2]; exact ha'lt)
  have hb3ne : ∀ k, k ≠ e.a.toNat →
      s3.P_.getD k default = s2.P_.getD k default := by
    intro k hkne
    rw [hs3]
    simp only [Simulator.bounce_wall_x]
    exact getD_set_ne _ _ _ _ hkne
  have hbox3all : ∀ k, k < s.P_.length → inBox s.cfg_ (s3.P_.getD k default) := by
    intro k hk
    by_cases hke : k = e.a.toNat
    · subst hke
      rw [hb3a]
      exact hbox2 e.a.toNat hk
    · rw [hb3ne k hke]
      exact hbox2 k hk
  have hbox3 : inBox s3.cfg_ (s3.P_.getD e.a.toNat default) := by
    rw [hc3]
    exact hbox3all e.a.toNat ha'lt
  refine ⟨?_, ?_, ?_, ?_, ?_⟩
  · intro x hx
    show s3.t_ ≤ x.t
    rw [ht3]
    have hx' : x ∈ (s3.pq_ ++ s3.schedule_wall_events e.a)
        ++ s3.schedule_pp_events_for e.a := hx
    rcases List.mem_append.mp hx' with hx1 | hx1
    · rcases List.mem_append.mp hx1 with hx0 | hx0
      · rw [hpq3] at hx0
        exact popRel_min hpop x (popRel_rest_mem hpop x hx0)
      · have hb := (wall_events_bounds s3 e.a (Or.inl hbox3) x hx0).1
        rw [ht3] at hb
        exact hb
    · have hb := (pp_events_bounds s3 e.a x hx1).1
      rw [ht3] at hb
      exact hb
  · intro x hx
    show x.t ≤ s3.cfg_.T_end
    have hx' : x ∈ (s3.pq_ ++ s3.schedule_wall_events e.a)
        ++ s3.schedule_pp_events_for e.a := hx
    rcases List.mem_append.mp hx' with hx1 | hx1
    · rcases List.mem_append.mp hx1 with hx0 | hx0
      · rw [hpq3] at hx0
        rw [hc3]
        exact hinv.2.1 x (popRel_rest_mem hpop x hx0)
      · exact (wall_events_bounds s3 e.a (Or.inl hbox3) x hx0).2.1
    · exact (pp_events_bounds s3 e.a x hx1).2.1
  · intro k hk
    have hk' : k < s.P_.length := by
      have h0 : k < s3.P_.length := hk
      rw [hlen3] at h0
      exact h0
    show inBox s3.cfg_ (s3.P_.getD k default)
    rw [hc3]
    exact hbox3all k hk'
  · intro k hk
    have hk' : k < s.P_.length := by
      have h0 : k < s3.P_.length := hk
      rw [hlen3] at h0
      exact h0
    constructor
    · intro tx htx
      by_cases hke : k = e.a.toNat
      · subst hke
        rcases wall_events_cover_x s3 e.a tx htx with hfar | ⟨ev, hev, h1', h2', h3', h4'⟩
        · exact Or.inl hfar
        · refine Or.inr ⟨ev,
            List.mem_append.mpr (Or.inl (List.mem_append.mpr (Or.inr hev))),
            h1', ?_, h3', h4'⟩
          rw [h2']
          exact ha'.symm
      · have hkint_ne : (k : Int) ≠ e.a := fun h => hke ((hkint k).mp h)
        obtain ⟨hv2, hrad2, hm2, hcc2, hrx2, hry2⟩ := hbody2 k hk'
        have hq3 : s3.P_.getD k default = s2.P_.getD k default := hb3ne k hke
        have htx' : Simulator.time_to_wall_x s3 (s3.P_.getD k default)
            = some tx := htx
        rw [hq3] at htx'
        by_cases hvx : (s.P_.getD k default).v.x = 0
        · have hvq : (s2.P_.getD k default).v.x = 0 := by
            rw [hv2]
            exact hvx
          rw [time_to_wall_x_none s3 _ hvq] at htx'
          cases htx'
        · obtain ⟨tx0, htx0⟩ := time_to_wall_x_isSome s (s.P_.getD k default) hvx
          have hshift := time_to_wall_x_shift s s3 (by rw [hc3])
            (s.P_.getD k default) (s2.P_.getD k default) (e.t - s.t_)
            hv2 hrad2 hrx2 tx0 htx0
          have htxeq : tx = tx0 - (e.t - s.t_) :=
            (Option.some.inj (hshift.symm.trans htx')).symm
          rcases (hinv.2.2.2.1 k hk').1 tx0 htx0 with hfar | ⟨w, hw, hw1, hw2, hw3, hw4⟩
          · refine Or.inl ?_
            show s3.cfg_.T_end < s3.t_ + tx
            rw [hc3, ht3, htxeq]
            linarith
          · refine Or.inr ⟨w, ?_, hw1, hw2, ?_, ?_⟩
            · have hwe : w ≠ e := by
                intro heq
                rw [heq] at hw2
                exact hkint_ne hw2.symm
              exact List.mem_append.mpr (Or.inl (List.mem_append.mpr
                (Or.inl (by rw [hpq3]; exact popRel_mem_rest hpop w hw hwe))))
            · show w.collA = (s3.P_.getD k default).coll_count
              rw [hq3, hcc2]
              exact hw3
            · show w.t = s3.t_ + tx
              rw [ht3, htxeq, hw4]
              ring
    · intro ty hty'
      by_cases hke : k = e.a.toNat
      · subst hke
        rcases wall_events_cover_y s3 e.a ty hty' with hfar | ⟨ev, hev, h1', h2', h3', h4'⟩
        · exact Or.inl hfar
        · refine Or.inr ⟨ev,
            List.mem_append.mpr (Or.inl (List.mem_append.mpr (Or.inr hev))),
            h1', ?_, h3', h4'⟩
          rw [h2']
          exact ha'.symm
      · have hkint_ne : (k : Int) ≠ e.a := fun h => hke ((hkint k).mp h)
        obtain ⟨hv2, hrad2, hm2, hcc2, hrx2, hry2⟩ := hbody2 k hk'
        have hq3 : s3.P_.getD k default = s2.P_.getD k default := hb3ne k hke
        have hty'' : Simulator.time_to_wall_y s3 (s3.P_.getD k default)
            = some ty := hty'
        rw [hq3] at hty''
        by_cases hvy : (s.P_.getD k default).v.y = 0
        · have hvq : (s2.P_.getD k default).v.y = 0 := by
            rw [hv2]
            exact hvy
          rw [time_to_wall_y_none s3 _ hvq] at hty''
          cases hty''
        · obtain ⟨ty0, hty0⟩ := time_to_wall_y_isSome s (s.P_.getD k default) hvy
          have hshift := time_to_wall_y_shift s s3 (by rw [hc3])
            (s.P_.getD k default) (s2.P_.getD k default) (e.t - s.t_)
            hv2 hrad2 hry2 ty0 hty0
          have htyeq : ty = ty0 - (e.t - s.t_) :=
            (Option.some.inj (hshift.symm.trans hty'')).symm
          rcases (hinv.2.2.2.1 k hk').2 ty0 hty0 with hfar | ⟨w, hw, hw1, hw2, hw3, hw4⟩
          · refine Or.inl ?_
            show s3.cfg_.T_end < s3.t_ + ty
            rw [hc3, ht3, htyeq]
            linarith
          · refine Or.inr ⟨w, ?_, hw1, hw2, ?_, ?_⟩
            · have hwe : w ≠ e := by
                intro heq
                rw [heq] at hw2
                exact hkint_ne hw2.symm
              exact List.mem_append.mpr (Or.inl (List.mem_append.mpr
                (Or.inl (by rw [hpq3]; exact popRel_mem_rest hpop w hw hwe))))
            · show w.collA = (s3.P_.getD k default).coll_count
              rw [hq3, hcc2]
              exact hw3
            · show w.t = s3.t_ + ty
              rw [ht3, htyeq, hw4]
              ring
  · intro x hx
    have hx' : x ∈ (s3.pq_ ++ s3.schedule_wall_events e.a)
        ++ s3.schedule_pp_events_for e.a := hx
    show 0 ≤ x.a ∧ x.a < (s3.P_.length : Int) ∧
      (x.type = EventType.P_P → x.a < x.b ∧ x.b < (s3.P_.length : Int))
    rw [hlen3]
    rcases List.mem_append.mp hx' with hx1 | hx1
    · rcases List.mem_append.mp hx1 with hx0 | hx0
      · rw [hpq3] at hx0
        exact hinv.2.2.2.2 x (popRel_rest_mem hpop x hx0)
      · obtain ⟨-, -, hea, -, hnp⟩ := wall_events_bounds s3 e.a (Or.inl hbox3) x hx0
        rw [hea]
        exact ⟨ha0, haN, fun hP => absurd hP hnp⟩
    · obtain ⟨-, -, -, hea, hb1, hb2⟩ := pp_events_bounds s3 e.a x hx1
      rw [hlen3] at hb2
      rw [hea]
      exact ⟨ha0, haN, fun _ => ⟨by omega, hb2⟩⟩

/-- Committing a popped y-wall event preserves the invariant: the drift
keeps every body in the box, the bounce flips one velocity component and
bumps one counter, and the reschedule pushes fresh covering events for the
bounced body; every other body's cover witness survives the pop. -/
theorem SimInv_commit_wall_y (s : Simulator) (e : Event) (rest : List Event)
    (hpop : Simulator.popRel s.pq_ e rest)
    (hT : e.t ≤ s.cfg_.T_end) (hinv : SimInv s)
    (hty : e.type = EventType.P_WALL_Y) :
    SimInv (Simulator.commitEvent { s with pq_ := rest } e) := by
  have hle : s.t_ ≤ e.t := hinv.1 e (popRel_mem hpop)
  have hwf := hinv.2.2.2.2 e (popRel_mem hpop)
  have hcds := commit_drift_state s e rest hle
  have hbox2 := drift_keeps_box s e rest hpop hT hinv
  simp only [Simulator.commitEvent, hty]
  set s2 : Simulator := ({ s with pq_ := rest } : Simulator).snapshot.drift_to e.t
    with hs2
  set s3 : Simulator := s2.bounce_wall_y e.a with hs3
  obtain ⟨hcfg2, ht2, hpq2, hlen2, hbody2⟩ := hcds
  have ha0 : 0 ≤ e.a := hwf.1
  have haN : e.a < (s.P_.length : Int) := hwf.2.1
  have ha' : ((e.a.toNat : Nat) : Int) = e.a := Int.toNat_of_nonneg ha0
  have ha'lt : e.a.toNat < s.P_.length := by
    have h0 : ((e.a.toNat : Nat) : Int) < (s.P_.length : Int) := by
      rw [ha']
      exact haN
    exact_mod_cast h0
  have hkint : ∀ k : Nat, (k : Int) = e.a ↔ k = e.a.toNat := by
    intro k
    constructor
    · intro h
      have h0 : (k : Int) = ((e.a.toNat : Nat) : Int) := by
        rw [ha']
        exact h
      exact_mod_cast h0
    · intro h
      rw [h, ha']
  have hlen3 : s3.P_.length = s.P_.length := by
    rw [hs3]
    simp only [Simulator.bounce_wall_y, List.length_set]
    exact hlen2
  have ht3 : s3.t_ = e.t := by
    rw [hs3]
    show s2.t_ = e.t
    exact ht2
  have hc3 : s3.cfg_ = s.cfg_ := by
    rw [hs3]
    show s2.cfg_ = s.cfg_
    exact hcfg2
  have hpq3 : s3.pq_ = rest := by
    rw [hs3]
    show s2.pq_ = rest
    exact hpq2
  have hb3a : s3.P_.getD e.a.toNat default
      = { s2.P_.getD e.a.toNat default with
          v := { (s2.P_.getD e.a.toNat default).v with
                 y := -(s2.P_.getD e.a.toNat default).v.y },
          coll_count := (s2.P_.getD e.a.toNat default).coll_count + 1 } := by
    rw [hs3]
    simp only [Simulator.bounce_wall_y]
    exact getD_set_eq _ _ _ (by rw [hlen2]; exact ha'lt)
  have hb3ne : ∀ k, k ≠ e.a.toNat →
      s3.P_.getD k default = s2.P_.getD k default := by
    intro k hkne
    rw [hs3]
    simp only [Simulator.bounce_wall_y]
    exact getD_set_ne _ _ _ _ hkne
  have hbox3all : ∀ k, k < s.P_.length → inBox s.cfg_ (s3.P_.getD k default) := by
    intro k hk
    by_cases hke : k = e.a.toNat
    · subst hke
      rw [hb3a]
      exact hbox2 e.a.toNat hk
    · rw [hb3ne k hke]
      exact hbox2 k hk
  have hbox3 : inBox s3.cfg_ (s3.P_.getD e.a.toNat default) := by
    rw [hc3]
    exact hbox3all e.a.toNat ha'lt
  refine ⟨?_, ?_, ?_, ?_, ?_⟩
  · intro x hx
    show s3.t_ ≤ x.t
    rw [ht3]
    have hx' : x ∈ (s3.pq_ ++ s3.schedule_wall_events e.a)
        ++ s3.schedule_pp_events_for e.a := hx
    rcases List.mem_append.mp hx' with hx1 | hx1
    · rcases List.mem_append.mp hx1 with hx0 | hx0
      · rw [hpq3] at hx0
        exact popRel_min hpop x (popRel_rest_mem hpop x hx0)
      · have hb := (wall_events_bounds s3 e.a (Or.inl hbox3) x hx0).1
        rw [ht3] at hb
        exact hb
    · have hb := (pp_events_bounds s3 e.a x hx1).1
      rw [ht3] at hb
      exact hb
  · intro x hx
    show x.t ≤ s3.cfg_.T_end
    have hx' : x ∈ (s3.pq_ ++ s3.schedule_wall_events e.a)
        ++ s3.schedule_pp_events_for e.a := hx
    rcases List.mem_append.mp hx' with hx1 | hx1
    · rcases List.mem_append.mp hx1 with hx0 | hx0
      · rw [hpq3] at hx0
        rw [hc3]
        exact hinv.2.1 x (popRel_rest_mem hpop x hx0)
      · exact (wall_events_bounds s3 e.a (Or.inl hbox3) x hx0).2.1
    · exact (pp_events_bounds s3 e.a x hx1).2.1
  · intro k hk
    have hk' : k < s.P_.length := by
      have h0 : k < s3.P_.length := hk
      rw [hlen3] at h0
      exact h0
    show inBox s3.cfg_ (s3.P_.getD k default)
    rw [hc3]
    exact hbox3all k hk'
  · intro k hk
    have hk' : k < s.P_.length := by
      have h0 : k < s3.P_.length := hk
      rw [hlen3] at h0
      exact h0
    constructor
    · intro tx htx
      by_cases hke : k = e.a.toNat
      · subst hke
        rcases wall_events_cover_x s3 e.a tx htx with hfar | ⟨ev, hev, h1', h2', h3', h4'⟩
        · exact Or.inl hfar
        · refine Or.inr ⟨ev,
            List.mem_append.mpr (Or.inl (List.mem_append.mpr (Or.inr hev))),
            h1', ?_, h3', h4'⟩
          rw [h2']
          exact ha'.symm
      · have hkint_ne : (k : Int) ≠ e.a := fun h => hke ((hkint k).mp h)
        obtain ⟨hv2, hrad2, hm2, hcc2, hrx2, hry2⟩ := hbody2 k hk'
        have hq3 : s3.P_.getD k default = s2.P_.getD k default := hb3ne k hke
        have htx' : Simulator.time_to_wall_x s3 (s3.P_.getD k default)
            = some tx := htx
        rw [hq3] at htx'
        by_cases hvx : (s.P_.getD k default).v.x = 0
        · have hvq : (s2.P_.getD k default).v.x = 0 := by
            rw [hv2]
            exact hvx
          rw [time_to_wall_x_none s3 _ hvq] at htx'
          cases htx'
        · obtain ⟨tx0, htx0⟩ := time_to_wall_x_isSome s (s.P_.getD k default) hvx
          have hshift := time_to_wall_x_shift s s3 (by rw [hc3])
            (s.P_.getD k default) (s2.P_.getD k default) (e.t - s.t_)
            hv2 hrad2 hrx2 tx0 htx0
          have htxeq : tx = tx0 - (e.t - s.t_) :=
            (Option.some.inj (hshift.symm.trans htx')).symm
          rcases (hinv.2.2.2.1 k hk').1 tx0 htx0 with hfar | ⟨w, hw, hw1, hw2, hw3, hw4⟩
          · refine Or.inl ?_
            show s3.cfg_.T_end < s3.t_ + tx
            rw [hc3, ht3, htxeq]
            linarith
          · refine Or.inr ⟨w, ?_, hw1, hw2, ?_, ?_⟩
            · have hwe : w ≠ e := by
                intro heq
                rw [heq] at hw2
                exact hkint_ne hw2.symm
              exact List.mem_append.mpr (Or.inl (List.mem_append.mpr
                (Or.inl (by rw [hpq3]; exact popRel_mem_rest hpop w hw hwe))))
            · show w.collA = (s3.P_.getD k default).coll_count
              rw [hq3, hcc2]
              exact hw3
            · show w.t = s3.t_ + tx
              rw [ht3, htxeq, hw4]
              ring
    · intro ty hty'
      by_cases hke : k = e.a.toNat
      · subst hke
        rcases wall_events_cover_y s3 e.a ty hty' with hfar | ⟨ev, hev, h1', h2', h3', h4'⟩
        · exact Or.inl hfar
        · refine Or.inr ⟨ev,
            List.mem_append.mpr (Or.inl (List.mem_append.mpr (Or.inr hev))),
            h1', ?_, h3', h4'⟩
          rw [h2']
          exact ha'.symm
      · have hkint_ne : (k : Int) ≠ e.a := fun h => hke ((hkint k).mp h)
        obtain ⟨hv2, hrad2, hm2, hcc2, hrx2, hry2⟩ := hbody2 k hk'
        have hq3 : s3.P_.getD k default = s2.P_.getD k default := hb3ne k hke
        have hty'' : Simulator.time_to_wall_y s3 (s3.P_.getD k default)
            = some ty := hty'
        rw [hq3] at hty''
        by_cases hvy : (s.P_.getD k default).v.y = 0
        · have hvq : (s2.P_.getD k default).v.y = 0 := by
            rw [hv2]
            exact hvy
          rw [time_to_wall_y_none s3 _ hvq] at hty''
          cases hty''
        · obtain ⟨ty0, hty0⟩ := time_to_wall_y_isSome s (s.P_.getD k default) hvy
          have hshift := time_to_wall_y_shift s s3 (by rw [hc3])
            (s.P_.getD k default) (s2.P_.getD k default) (e.t - s.t_)
            hv2 hrad2 hry2 ty0 hty0
          have htyeq : ty = ty0 - (e.t - s.t_) :=
            (Option.some.inj (hshift.symm.trans hty'')).symm
          rcases (hinv.2.2.2.1 k hk').2 ty0 hty0 with hfar | ⟨w, hw, hw1, hw2, hw3, hw4⟩
          · refine Or.inl ?_
            show s3.cfg_.T_end < s3.t_ + ty
            rw [hc3, ht3, htyeq]
            linarith
          · refine Or.inr ⟨w, ?_, hw1, hw2, ?_, ?_⟩
            · have hwe : w ≠ e := by
                intro heq
                rw [heq] at hw2
                exact hkint_ne hw2.symm
              exact List.mem_append.mpr (Or.inl (List.mem_append.mpr
                (Or.inl (by rw [hpq3]; exact popRel_mem_rest hpop w hw hwe))))
            · show w.collA = (s3.P_.getD k default).coll_count
              rw [hq3, hcc2]
              exact hw3
            · show w.t = s3.t_ + ty
              rw [ht3, htyeq, hw4]
              ring
  · intro x hx
    have hx' : x ∈ (s3.pq_ ++ s3.schedule_wall_events e.a)
        ++ s3.schedule_pp_events_for e.a := hx
    show 0 ≤ x.a ∧ x.a < (s3.P_.length : Int) ∧
      (x.type = EventType.P_P → x.a < x.b ∧ x.b < (s3.P_.length : Int))
    rw [hlen3]
    rcases List.mem_append.mp hx' with hx1 | hx1
    · rcases List.mem_append.mp hx1 with hx0 | hx0
      · rw [hpq3] at hx0
        exact hinv.2.2.2.2 x (popRel_rest_mem hpop x hx0)
      · obtain ⟨-, -, hea, -, hnp⟩ := wall_events_bounds s3 e.a (Or.inl hbox3) x hx0
        rw [hea]
        exact ⟨ha0, haN, fun hP => absurd hP hnp⟩
    · obtain ⟨-, -, -, hea, hb1, hb2⟩ := pp_events_bounds s3 e.a x hx1
      rw [hlen3] at hb2
      rw [hea]
      exact ⟨ha0, haN, fun _ => ⟨by omega, hb2⟩⟩

/-- Committing a popped pair event preserves the invariant: positions are
untouched by the impulse, both participants get freshly pushed covering
wall events, and every other body's witness survives (it is a wall event,
the popped event is a pair event). -/
theorem SimInv_commit_pp (s : Simulator) (e : Event) (rest : List Event)
    (hpop : Simulator.popRel s.pq_ e rest)
    (hT : e.t ≤ s.cfg_.T_end) (hinv : SimInv s)
    (hty : e.type = EventType.P_P) :
    SimInv (Simulator.commitEvent { s with pq_ := rest } e) := by
  have hle : s.t_ ≤ e.t := hinv.1 e (popRel_mem hpop)
  have hwf := hinv.2.2.2.2 e (popRel_mem hpop)
  have hcds := commit_drift_state s e rest hle
  have hbox2 := drift_keeps_box s e rest hpop hT hinv
  simp only [Simulator.commitEvent, hty]
  set s2 : Simulator := ({ s with pq_ := rest } : Simulator).snapshot.drift_to e.t
    with hs2
  set s3 : Simulator := s2.bounce_pp e.a e.b with hs3
  obtain ⟨hcfg2, ht2, hpq2, hlen2, hbody2⟩ := hcds
  have ha0 : 0 ≤ e.a := hwf.1
  have haN : e.a < (s.P_.length : Int) := hwf.2.1
  have hab : e.a < e.b := (hwf.2.2 hty).1
  have hbN : e.b < (s.P_.length : Int) := (hwf.2.2 hty).2
  have hb0 : 0 ≤ e.b := le_trans ha0 (le_of_lt hab)
  have ha' : ((e.a.toNat : Nat) : Int) = e.a := Int.toNat_of_nonneg ha0
  have hb' : ((e.b.toNat : Nat) : Int) = e.b := Int.toNat_of_nonneg hb0
  have ha'lt : e.a.toNat < s.P_.length := by
    have h0 : ((e.a.toNat : Nat) : Int) < (s.P_.length : Int) := by
      rw [ha']
      exact haN
    exact_mod_cast h0
  have hb'lt : e.b.toNat < s.P_.length := by
    have h0 : ((e.b.toNat : Nat) : Int) < (s.P_.length : Int) := by
      rw [hb']
      exact hbN
    exact_mod_cast h0
  have hane : e.a.toNat ≠ e.b.toNat := by
    intro h
    have h0 : ((e.a.toNat : Nat) : Int) = ((e.b.toNat : Nat) : Int) := by
      exact_mod_cast h
    rw [ha', hb'] at h0
    exact absurd h0 (ne_of_lt hab)
  have hkinta : ∀ k : Nat, (k : Int) = e.a ↔ k = e.a.toNat := by
    intro k
    constructor
    · intro h
      have h0 : (k : Int) = ((e.a.toNat : Nat) : Int) := by
        rw [ha']
        exact h
      exact_mod_cast h0
    · intro h
      rw [h, ha']
  have hkintb : ∀ k : Nat, (k : Int) = e.b ↔ k = e.b.toNat := by
    intro k
    constructor
    · intro h
      have h0 : (k : Int) = ((e.b.toNat : Nat) : Int) := by
        rw [hb']
        exact h
      exact_mod_cast h0
    · intro h
      rw [h, hb']
  have hlen3 : s3.P_.length = s.P_.length := by
    rw [hs3]
    simp only [Simulator.bounce_pp, List.length_set]
    exact hlen2
  have ht3 : s3.t_ = e.t := by
    rw [hs3]
    show s2.t_ = e.t
    exact ht2
  have hc3 : s3.cfg_ = s.cfg_ := by
    rw [hs3]
    show s2.cfg_ = s.cfg_
    exact hcfg2
  have hpq3 : s3.pq_ = rest := by
    rw [hs3]
    show s2.pq_ = rest
    exact hpq2
  have hb3a : s3.P_.getD e.a.toNat default
      = (bounce_pp_pair (s2.pAt e.a) (s2.pAt e.b)).1 := by
    rw [hs3]
    simp only [Simulator.bounce_pp]
    rw [getD_set_ne _ _ _ _ hane]
    exact getD_set_eq _ _ _ (by rw [hlen2]; exact ha'lt)
  have hb3b : s3.P_.getD e.b.toNat default
      = (bounce_pp_pair (s2.pAt e.a) (s2.pAt e.b)).2 := by
    rw [hs3]
    simp only [Simulator.bounce_pp]
    exact getD_set_eq _ _ _
      (by rw [List.length_set, hlen2]; exact hb'lt)
  have hb3ne : ∀ k, k ≠ e.a.toNat → k ≠ e.b.toNat →
      s3.P_.getD k default = s2.P_.getD k default := by
    intro k hka hkb
    rw [hs3]
    simp only [Simulator.bounce_pp]
    rw [getD_set_ne _ _ _ _ hkb]
    exact getD_set_ne _ _ _ _ hka
  obtain ⟨hAr, hArad, hAm, hBr, hBrad, hBm⟩ :=
    bounce_pp_pair_fields (s2.pAt e.a) (s2.pAt e.b)
  have hbox3all : ∀ k, k < s.P_.length → inBox s.cfg_ (s3.P_.getD k default) := by
    intro k hk
    by_cases hka : k = e.a.toNat
    · subst hka
      rw [hb3a]
      have hb := hbox2 e.a.toNat ha'lt
      simp only [inBox] at hb ⊢
      rw [hAr, hArad]
      exact hb
    · by_cases hkb : k = e.b.toNat
      · subst hkb
        rw [hb3b]
        have hb := hbox2 e.b.toNat hb'lt
        simp only [inBox] at hb ⊢
        rw [hBr, hBrad]
        exact hb
      · rw [hb3ne k hka hkb]
        exact hbox2 k hk
  have hbox3a : inBox s3.cfg_ (s3.P_.getD e.a.toNat default) := by
    rw [hc3]
    exact hbox3all e.a.toNat ha'lt
  have hbox3b : inBox s3.cfg_ (s3.P_.getD e.b.toNat default) := by
    rw [hc3]
    exact hbox3all e.b.toNat hb'lt
  have hmem4 : ∀ x, x ∈ ((s3.pq_ ++ s3.schedule_wall_events e.a)
        ++ s3.schedule_wall_events e.b) ++ s3.pair_reschedule_events e.a e.b →
      x ∈ s3.pq_ ∨ x ∈ s3.schedule_wall_events e.a ∨
      x ∈ s3.schedule_wall_events e.b ∨ x ∈ s3.pair_reschedule_events e.a e.b := by
    intro x hx
    rcases List.mem_append.mp hx with hx1 | hx1
    · rcases List.mem_append.mp hx1 with hx2 | hx2
      · rcases List.mem_append.mp hx2 with hx3 | hx3
        · exact Or.inl hx3
        · exact Or.inr (Or.inl hx3)
      · exact Or.inr (Or.inr (Or.inl hx2))
    · exact Or.inr (Or.inr (Or.inr hx1))
  have haNi : e.a < (s3.P_.length : Int) := by
    rw [hlen3]
    exact haN
  have hbNi : e.b < (s3.P_.length : Int) := by
    rw [hlen3]
    exact hbN
  refine ⟨?_, ?_, ?_, ?_, ?_⟩
  · intro x hx
    show s3.t_ ≤ x.t
    rw [ht3]
    rcases hmem4 x hx with hx0 | hx0 | hx0 | hx0
    · rw [hpq3] at hx0
      exact popRel_min hpop x (popRel_rest_mem hpop x hx0)
    · have hb := (wall_events_bounds s3 e.a (Or.inl hbox3a) x hx0).1
      rw [ht3] at hb
      exact hb
    · have hb := (wall_events_bounds s3 e.b (Or.inl hbox3b) x hx0).1
      rw [ht3] at hb
      exact hb
    · have hb := (pair_resched_bounds s3 e.a e.b ha0 haNi hb0 hbNi x hx0).1
      rw [ht3] at hb
      exact hb
  · intro x hx
    show x.t ≤ s3.cfg_.T_end
    rcases hmem4 x hx with hx0 | hx0 | hx0 | hx0
    · rw [hpq3] at hx0
      rw [hc3]
      exact hinv.2.1 x (popRel_rest_mem hpop x hx0)
    · exact (wall_events_bounds s3 e.a (Or.inl hbox3a) x hx0).2.1
    · exact (wall_events_bounds s3 e.b (Or.inl hbox3b) x hx0).2.1
    · exact (pair_resched_bounds s3 e.a e.b ha0 haNi hb0 hbNi x hx0).2.1
  · intro k hk
    have hk' : k < s.P_.length := by
      have h0 : k < s3.P_.length := hk
      rw [hlen3] at h0
      exact h0
    show inBox s3.cfg_ (s3.P_.getD k default)
    rw [hc3]
    exact hbox3all k hk'
  · intro k hk
    have hk' : k < s.P_.length := by
      have h0 : k < s3.P_.length := hk
      rw [hlen3] at h0
      exact h0
    constructor
    · intro tx htx
      by_cases hka : k = e.a.toNat
      · subst hka
        rcases wall_events_cover_x s3 e.a tx htx with hfar | ⟨ev, hev, h1', h2', h3', h4'⟩
        · exact Or.inl hfar
        · refine Or.inr ⟨ev, List.mem_append.mpr (Or.inl (List.mem_append.mpr
            (Or.inl (List.mem_append.mpr (Or.inr hev))))), h1', ?_, h3', h4'⟩
          rw [h2']
          exact ha'.symm
      · by_cases hkb : k = e.b.toNat
        · subst hkb
          rcases wall_events_cover_x s3 e.b tx htx with hfar | ⟨ev, hev, h1', h2', h3', h4'⟩
          · exact Or.inl hfar
          · refine Or.inr ⟨ev, List.mem_append.mpr (Or.inl (List.mem_append.mpr
              (Or.inr hev))), h1', ?_, h3', h4'⟩
            rw [h2']
            exact hb'.symm
        · obtain ⟨hv2, hrad2, hm2, hcc2, hrx2, hry2⟩ := hbody2 k hk'
          have hq3 : s3.P_.getD k default = s2.P_.getD k default := hb3ne k hka hkb
          have htx' : Simulator.time_to_wall_x s3 (s3.P_.getD k default)
              = some tx := htx
          rw [hq3] at htx'
          by_cases hvx : (s.P_.getD k default).v.x = 0
          · have hvq : (s2.P_.getD k default).v.x = 0 := by
              rw [hv2]
              exact hvx
            rw [time_to_wall_x_none s3 _ hvq] at htx'
            cases htx'
          · obtain ⟨tx0, htx0⟩ := time_to_wall_x_isSome s (s.P_.getD k default) hvx
            have hshift := time_to_wall_x_shift s s3 (by rw [hc3])
              (s.P_.getD k default) (s2.P_.getD k default) (e.t - s.t_)
              hv2 hrad2 hrx2 tx0 htx0
            have htxeq : tx = tx0 - (e.t - s.t_) :=
              (Option.some.inj (hshift.symm.trans htx')).symm
            rcases (hinv.2.2.2.1 k hk').1 tx0 htx0 with hfar | ⟨w, hw, hw1, hw2, hw3, hw4⟩
            · refine Or.inl ?_
              show s3.cfg_.T_end < s3.t_ + tx
              rw [hc3, ht3, htxeq]
              linarith
            · refine Or.inr ⟨w, ?_, hw1, hw2, ?_, ?_⟩
              · have hwe : w ≠ e := by
                  intro heq
                  rw [heq, hty] at hw1
                  cases hw1
                exact List.mem_append.mpr (Or.inl (List.mem_append.mpr (Or.inl
                  (List.mem_append.mpr (Or.inl
                    (by rw [hpq3]; exact popRel_mem_rest hpop w hw hwe))))))
              · show w.collA = (s3.P_.getD k default).coll_count
                rw [hq3, hcc2]
                exact hw3
              · show w.t = s3.t_ + tx
                rw [ht3, htxeq, hw4]
                ring
    · intro ty hty'
      by_cases hka : k = e.a.toNat
      · subst hka
        rcases wall_events_cover_y s3 e.a ty hty' with hfar | ⟨ev, hev, h1', h2', h3', h4'⟩
        · exact Or.inl hfar
        · refine Or.inr ⟨ev, List.mem_append.mpr (Or.inl (List.mem_append.mpr
            (Or.inl (List.mem_append.mpr (Or.inr hev))))), h1', ?_, h3', h4'⟩
          rw [h2']
          exact ha'.symm
      · by_cases hkb : k = e.b.toNat
        · subst hkb
          rcases wall_events_cover_y s3 e.b ty hty' with hfar | ⟨ev, hev, h1', h2', h3', h4'⟩
          · exact Or.inl hfar
          · refine Or.inr ⟨ev, List.mem_append.mpr (Or.inl (List.mem_append.mpr
              (Or.inr hev))), h1', ?_, h3', h4'⟩
            rw [h2']
            exact hb'.symm
        · obtain ⟨hv2, hrad2, hm2, hcc2, hrx2, hry2⟩ := hbody2 k hk'
          have hq3 : s3.P_.getD k default = s2.P_.getD k default := hb3ne k hka hkb
          have hty'' : Simulator.time_to_wall_y s3 (s3.P_.getD k default)
              = some ty := hty'
          rw [hq3] at hty''
          by_cases hvy : (s.P_.getD k default).v.y = 0
          · have hvq : (s2.P_.getD k default).v.y = 0 := by
              rw [hv2]
              exact hvy
            rw [time_to_wall_y_none s3 _ hvq] at hty''
            cases hty''
          · obtain ⟨ty0, hty0⟩ := time_to_wall_y_isSome s (s.P_.getD k default) hvy
            have hshift := time_to_wall_y_shift s s3 (by rw [hc3])
              (s.P_.getD k default) (s2.P_.getD k default) (e.t - s.t_)
              hv2 hrad2 hry2 ty0 hty0
            have htyeq : ty = ty0 - (e.t - s.t_) :=
              (Option.some.inj (hshift.symm.trans hty'')).symm
            rcases (hinv.2.2.2.1 k hk').2 ty0 hty0 with hfar | ⟨w, hw, hw1, hw2, hw3, hw4⟩
            · refine Or.inl ?_
              show s3.cfg_.T_end < s3.t_ + ty
              rw [hc3, ht3, htyeq]
              linarith
            · refine Or.inr ⟨w, ?_, hw1, hw2, ?_, ?_⟩
              · have hwe : w ≠ e := by
                  intro heq
                  rw [heq, hty] at hw1
                  cases hw1
                exact List.mem_append.mpr (Or.inl (List.mem_append.mpr (Or.inl
                  (List.mem_append.mpr (Or.inl
                    (by rw [hpq3]; exact popRel_mem_rest hpop w hw hwe))))))
              · show w.collA = (s3.P_.getD k default).coll_count
                rw [hq3, hcc2]
                exact hw3
              · show w.t = s3.t_ + ty
                rw [ht3, htyeq, hw4]
                ring
  · intro x hx
    show 0 ≤ x.a ∧ x.a < (s3.P_.length : Int) ∧
      (x.type = EventType.P_P → x.a < x.b ∧ x.b < (s3.P_.length : Int))
    rw [hlen3]
    rcases hmem4 x hx with hx0 | hx0 | hx0 | hx0
    · rw [hpq3] at hx0
      exact hinv.2.2.2.2 x (popRel_rest_mem hpop x hx0)
    · obtain ⟨-, -, hea, -, hnp⟩ := wall_events_bounds s3 e.a (Or.inl hbox3a) x hx0
      rw [hea]
      exact ⟨ha0, haN, fun hP => absurd hP hnp⟩
    · obtain ⟨-, -, hea, -, hnp⟩ := wall_events_bounds s3 e.b (Or.inl hbox3b) x hx0
      rw [hea]
      exact ⟨hb0, hbN, fun hP => absurd hP hnp⟩
    · obtain ⟨-, -, -, h0a, hlt, hbn⟩ :=
        pair_resched_bounds s3 e.a e.b ha0 haNi hb0 hbNi x hx0
      rw [hlen3] at hbn
      exact ⟨h0a, lt_trans hlt hbn, fun _ => ⟨hlt, hbn⟩⟩

/-- One driver-loop iteration preserves the invariant. -/
theorem SimInv_step (s s' : Simulator) (hstep : stepRel s s') (hinv : SimInv s) :
    SimInv s' := by
  obtain ⟨e, rest, hpop, hcase⟩ := hstep
  rcases hcase with hex | ⟨b, hco⟩
  · simp only [Simulator.iterOn] at hex
    by_cases hTe : e.t > s.cfg_.T_end
    · rw [if_pos hTe] at hex
      cases hex
      exact SimInv_break s e rest hpop hTe hinv
    · rw [if_neg hTe] at hex
      by_cases hv : s.valid e = false
      · rw [if_pos hv] at hex
        cases hex
      · rw [if_neg hv] at hex
        cases hex
  · simp only [Simulator.iterOn] at hco
    by_cases hTe : e.t > s.cfg_.T_end
    · rw [if_pos hTe] at hco
      cases hco
    · rw [if_neg hTe] at hco
      by_cases hv : s.valid e = false
      · rw [if_pos hv] at hco
        cases hco
        exact SimInv_stale s e rest hpop hv hinv
      · rw [if_neg hv] at hco
        cases hco
        cases hty : e.type
        · exact SimInv_commit_wall_x s e rest hpop (not_lt.mp hTe) hinv hty
        · exact SimInv_commit_wall_y s e rest hpop (not_lt.mp hTe) hinv hty
        · exact SimInv_commit_pp s e rest hpop (not_lt.mp hTe) hinv hty

/-- C8 (amended): provided every initial body starts inside the box, at
every instant of the driver loop — at the seeded state and after every
pop/commit/reschedule iteration — every pending event's scheduled time is
at least the current simulation time. -/
theorem pending_events_never_past (cfg : SimConfig) (P0 : List Particle)
    (hbox : ∀ p ∈ P0, inBox cfg p) (s : Simulator)
    (hreach : Relation.ReflTransGen stepRel (seedSim cfg P0) s) :
    ∀ e ∈ s.pq_, s.t_ ≤ e.t := by
  have hinv : SimInv s := by
    induction hreach with
    | refl => exact SimInv_seed cfg P0 hbox
    | tail hr hstep ih => exact SimInv_step _ _ hstep ih
  exact hinv.1

/-- Witness for the amended C8 at a concrete input: one in-box body at
`(5,5)` moving right seeds a single x-wall event at time `9/2`, which is
not in the past of the seeded clock. -/
theorem pending_events_never_past_witness :
    (seedSim {} [⟨⟨5, 5⟩, ⟨1, 0⟩, 1 / 2, 1, 0⟩]).t_
      ≤ (⟨9 / 2, 0, -1, EventType.P_WALL_X, 0, -1⟩ : Event).t := by
  have hpq : (seedSim {} [⟨⟨5, 5⟩, ⟨1, 0⟩, 1 / 2, 1, 0⟩]).pq_
      = [⟨9 / 2, 0, -1, EventType.P_WALL_X, 0, -1⟩] := by
    show [] ++ Simulator.schedule_all _ = _
    rw [List.nil_append]
    simp only [Simulator.schedule_all, Simulator.schedule_wall_events,
      Simulator.schedule_pp_events_for, Simulator.pAt, Simulator.time_to_wall_x,
      Simulator.time_to_wall_y, mkSimulator]
    norm_num [List.range_succ]
  exact pending_events_never_past {} [⟨⟨5, 5⟩, ⟨1, 0⟩, 1 / 2, 1, 0⟩]
    (by
      intro q hq
      cases List.mem_singleton.mp hq
      show (1 / 2 : ℝ) ≤ 5 ∧ (5 : ℝ) ≤ 10.0 - 1 / 2 ∧
        (1 / 2 : ℝ) ≤ 5 ∧ (5 : ℝ) ≤ 10.0 - 1 / 2
      norm_num)
    (seedSim {} [⟨⟨5, 5⟩, ⟨1, 0⟩, 1 / 2, 1, 0⟩]) Relation.ReflTransGen.refl
    ⟨9 / 2, 0, -1, EventType.P_WALL_X, 0, -1⟩
    (by rw [hpq]; exact List.mem_singleton.mpr rfl)

/-- C8 counterexample: with a body whose center starts outside the box
(`x = 20` in a width-10 box, radius `1/2`, moving right), seeding pushes an
x-wall event at the negative time `-21/2` while the simulation clock is
`0` — the pending set already violates the claimed invariant immediately
after seeding, the first of the instants the claim quantifies over. -/
theorem seed_event_in_past :
    ∃ ev ∈ (seedSim {} [⟨⟨20, 5⟩, ⟨1, 0⟩, 1 / 2, 1, 0⟩]).pq_,
      ev.t < (seedSim {} [⟨⟨20, 5⟩, ⟨1, 0⟩, 1 / 2, 1, 0⟩]).t_ := by
  have hpq : (seedSim {} [⟨⟨20, 5⟩, ⟨1, 0⟩, 1 / 2, 1, 0⟩]).pq_
      = [⟨-21 / 2, 0, -1, EventType.P_WALL_X, 0, -1⟩] := by
    show [] ++ Simulator.schedule_all _ = _
    rw [List.nil_append]
    simp only [Simulator.schedule_all, Simulator.schedule_wall_events,
      Simulator.schedule_pp_events_for, Simulator.pAt, Simulator.time_to_wall_x,
      Simulator.time_to_wall_y, mkSimulator]
    norm_num [List.range_succ]
  rw [hpq]
  refine ⟨⟨-21 / 2, 0, -1, EventType.P_WALL_X, 0, -1⟩, List.mem_singleton.mpr rfl, ?_⟩
  show (-21 / 2 : ℝ) < (0.0 : ℝ)
  norm_num

/-- Witness for C10 at concrete configurations: rollback on (depth 8)
versus off (depth 0) with no bodies — every execution of either run is
matched by one of the other with identical final time and bodies. -/
theorem rollback_config_invisible_witness :
    (∀ sf1, Simulator.RunExec
        (mkSimulator { enable_rollback := true, rollback_depth := 8 } []) sf1 →
      ∃ sf2, Simulator.RunExec
          (mkSimulator { enable_rollback := false, rollback_depth := 0 } []) sf2 ∧
        sf1.t_ = sf2.t_ ∧ sf1.P_ = sf2.P_) ∧
    (∀ sf2, Simulator.RunExec
        (mkSimulator { enable_rollback := false, rollback_depth := 0 } []) sf2 →
      ∃ sf1, Simulator.RunExec
          (mkSimulator { enable_rollback := true, rollback_depth := 8 } []) sf1 ∧
        sf1.t_ = sf2.t_ ∧ sf1.P_ = sf2.P_) :=
  rollback_config_invisible _ _ [] rfl rfl rfl rfl

end

